import Mathlib

/-!
Verification of the Iron Eye motion-phase segmentation and rep-counting engine.

This file shallowly embeds the core numeric components of the repository:

* `src/lib/engine/viterbiDecoder.ts` — the transition-grammar-constrained
  streaming Viterbi decoder (`ViterbiDecoder.decodeLast`).
* `src/lib/engine/oneEuro.ts` — the one-euro adaptive low-pass filter.
* `src/lib/engine/features.ts` — the joint-angle helper `angle3pt`.
* `src/lib/engine/snatchLogic.ts` — the `SnatchSessionEngine` state machine
  (side lock, park/reset detection, rep counting).
* the calibration store (`CalibrationData`) and the `calibrateFromPose`
  estimator (the latter modelled from the spec, as noted at its definition).

JavaScript numbers are modelled exactly: values flowing through the decoder
are represented by `EV` (either NaN, -Infinity, or a finite rational), with
addition and `>` following IEEE semantics as JavaScript exposes them
(NaN-propagating addition, all comparisons with NaN false).  Rounding of
doubles/float32 is not modelled; all claims proved here are about branch and
selection behaviour, which is exact at the inputs considered.
-/

namespace IronEye

/-- A JavaScript number as it occurs in the decoder: NaN (e.g. from an
out-of-range `Float32Array` read being added to a number), -Infinity (the
initial `maxScore` / `bestScore`), or a finite value. -/
inductive EV where
  | nan : EV
  | ninf : EV
  | fin : ℚ → EV
deriving DecidableEq, Repr

/-- JavaScript addition restricted to the values that occur in `decodeLast`:
NaN propagates; -Infinity plus a finite value (or -Infinity) is -Infinity. -/
def jadd : EV → EV → EV
  | .nan, _ => .nan
  | _, .nan => .nan
  | .ninf, _ => .ninf
  | _, .ninf => .ninf
  | .fin a, .fin b => .fin (a + b)

/-- JavaScript strict `>`: any comparison involving NaN is false;
a finite value exceeds -Infinity; finite values compare normally. -/
def jgt : EV → EV → Bool
  | .fin a, .fin b => decide (b < a)
  | .fin _, .ninf => true
  | _, _ => false

/-- Source `PHASES` from viterbiDecoder.ts: the fixed 9-phase label set, in index
order (index 0 = STANDING, ..., index 8 = PARK). -/
def PHASES : List String :=
  ["STANDING", "HANDONBELL", "HIKE", "PULL", "FLOAT",
   "LOCKOUT", "DROP", "CATCH", "PARK"]

/-- Source `TRANSITION_GRAMMAR` from viterbiDecoder.ts, with phases replaced by
their indices: entry `i` lists the legal target indices from phase `i`,
in source order. -/
def TRANSITION_GRAMMAR : List (List ℕ) :=
  [[0, 1],          -- STANDING:   STANDING, HANDONBELL
   [1, 2, 0],       -- HANDONBELL: HANDONBELL, HIKE, STANDING
   [2, 3],          -- HIKE:       HIKE, PULL
   [3, 4, 6],       -- PULL:       PULL, FLOAT, DROP
   [4, 5, 6],       -- FLOAT:      FLOAT, LOCKOUT, DROP
   [5, 6, 8],       -- LOCKOUT:    LOCKOUT, DROP, PARK
   [6, 7, 0],       -- DROP:       DROP, CATCH, STANDING
   [7, 8, 0, 3],    -- CATCH:      CATCH, PARK, STANDING, PULL
   [8, 0]]          -- PARK:       PARK, STANDING

def SELF_TRANSITION_BONUS : ℚ := 2
def TRANSITION_PENALTY : ℚ := 0
def ILLEGAL_PENALTY : ℚ := -1000

/-- The legal target list for phase `i` (empty for out-of-range `i`). -/
def legalTargets (i : ℕ) : List ℕ := TRANSITION_GRAMMAR.getD i []

/-- Source `buildTransitionMatrix` from viterbiDecoder.ts: every entry defaults to
the illegal penalty; grammar-legal edges get the self bonus on the diagonal
and the neutral penalty elsewhere. -/
def transMat (i j : ℕ) : ℚ :=
  if j ∈ legalTargets i then
    (if i = j then SELF_TRANSITION_BONUS else TRANSITION_PENALTY)
  else ILLEGAL_PENALTY

/-- Reading `logits[i]` from a `Float32Array`-backed list: an out-of-range
read yields `undefined`, which behaves as NaN in the arithmetic that
consumes it. -/
def readL (logits : List EV) (i : ℕ) : EV := (logits.get? i).getD .nan

/-- Running max with JavaScript `>` (the inner `maxScore` loop pattern of
`decodeLast`), folded from an explicit accumulator. -/
def fmaxAux (f : ℕ → EV) (l : List ℕ) (acc : EV) : EV :=
  l.foldl (fun m p => if jgt (f p) m then f p else m) acc

/-- The winner-selection fold of `decodeLast` (step 3): tracks
`(bestScore, bestIdx)`, updating on strict `>` only. -/
def fsel (f : ℕ → EV) (l : List ℕ) (acc : EV × ℕ) : EV × ℕ :=
  l.foldl (fun a s => if jgt (f s) a.1 then (f s, s) else a) acc

/-- Step 1 of `decodeLast`: seed the DP from the persistent previous state;
`prevScores[s] = transitionMatrix[state][s] + logits[s]`. -/
def initS (logits : List EV) (st : ℕ) : ℕ → EV :=
  fun s => jadd (.fin (transMat st s)) (readL logits s)

/-- Step 2 of `decodeLast` (one iteration of the forward Viterbi loop at
row `t`): `currScores[s] = max_p (prevScores[p] + transitionMatrix[p][s]
+ logits[t*C + s])`. -/
def stepS (logits : List EV) (prev : ℕ → EV) (t : ℕ) : ℕ → EV :=
  fun s =>
    fmaxAux (fun p => jadd (jadd (prev p) (.fin (transMat p s)))
      (readL logits (t * 9 + s))) (List.range 9) .ninf

/-- The DP table of `decodeLast` after consuming rows `0..t`. -/
def VS (logits : List EV) (st : ℕ) : ℕ → (ℕ → EV)
  | 0 => initS logits st
  | t + 1 => stepS logits (VS logits st t) (t + 1)

/-- The final scores examined by step 3 of `decodeLast`: the loop runs for
`t = 1, ..., steps-1`, so the scores inspected are those after row
`steps-1` (for `steps = 0` the loop body never runs and the seeded scores
are inspected directly). -/
def finalScores (logits : List EV) (steps : ℕ) (st : ℕ) : ℕ → EV :=
  VS logits st (steps - 1)

/-- Steps 3-4 of `decodeLast`: the selected best index, which is both the
returned phase index and the new persisted decoder state. -/
def decodeIdx (logits : List EV) (steps : ℕ) (st : ℕ) : ℕ :=
  (fsel (finalScores logits steps st) (List.range 9) (.ninf, 0)).2

/-- The phase label `decodeLast` returns, `PHASES[bestIdx]` (the default
string stands for the `undefined` a JavaScript out-of-range read would
give; `decodeIdx` is proved to stay in range). -/
def decodePhase (logits : List EV) (steps : ℕ) (st : ℕ) : String :=
  PHASES.getD (decodeIdx logits steps st) "undefined"

/-- A single score row whose entries heavily favor phase `s` by margin `M`
(value `M` at index `s`, `0` elsewhere), as a flattened logits array. -/
def favorRow (s : ℕ) (M : ℚ) : List EV :=
  (List.range 9).map (fun k => if k = s then .fin M else .fin 0)

example : decodeIdx ((List.range 9).map (fun k => .fin (if k = 2 then 500 else 0))) 1 0 = 0 :=
  of_decide_eq_true (by with_unfolding_all rfl)

example : decodeIdx (List.replicate 18 (EV.fin 1)) 2 3 = 3 :=
  of_decide_eq_true (by with_unfolding_all rfl)

example : decodeIdx (List.replicate 9 (EV.nan)) 1 4 = 0 :=
  of_decide_eq_true (by with_unfolding_all rfl)

/-! ### Generic facts about the JavaScript max/argmax folds -/

theorem jgt_nan_left (x : EV) : jgt .nan x = false := rfl

theorem jgt_ninf_left (x : EV) : jgt .ninf x = false := by cases x <;> rfl

theorem jgt_x_nan (x : EV) : jgt x .nan = false := by cases x <;> rfl

theorem jgt_fin_ninf (a : ℚ) : jgt (.fin a) .ninf = true := rfl

theorem jgt_irrefl (x : EV) : jgt x x = false := by
  cases x <;> simp [jgt]

/-- If `v` strictly beats the accumulator `b` and `j` does not, then `j`
does not strictly beat `v` either (the running max only grows). -/
theorem jgt_update (v b j : EV) (h1 : jgt v b = true) (h2 : jgt j b = false) :
    jgt j v = false := by
  cases v <;> cases b <;> cases j <;> simp_all [jgt] <;> linarith

theorem fsel_nil (f : ℕ → EV) (acc : EV × ℕ) : fsel f [] acc = acc := rfl

theorem fsel_cons (f : ℕ → EV) (a : ℕ) (l : List ℕ) (acc : EV × ℕ) :
    fsel f (a :: l) acc = fsel f l (if jgt (f a) acc.1 then (f a, a) else acc) := rfl

/-- A value that does not beat the accumulator never beats the final best. -/
theorem fsel_preserve (f : ℕ → EV) (l : List ℕ) (x : EV) :
    ∀ (acc : EV × ℕ), jgt x acc.1 = false → jgt x (fsel f l acc).1 = false := by
  induction l with
  | nil => intro acc h; simpa [fsel_nil]
  | cons a l ih =>
    intro acc h
    rw [fsel_cons]
    by_cases hu : jgt (f a) acc.1 = true
    · exact ih _ (by simpa [hu] using jgt_update (f a) acc.1 x hu h)
    · simp only [Bool.not_eq_true] at hu
      simpa [hu] using ih acc h

/-- No listed score strictly beats the final best score. -/
theorem fsel_no_beat (f : ℕ → EV) (l : List ℕ) (j : ℕ) (hj : j ∈ l) :
    ∀ (acc : EV × ℕ), jgt (f j) (fsel f l acc).1 = false := by
  induction l with
  | nil => cases hj
  | cons a l ih =>
    intro acc
    rw [fsel_cons]
    rcases List.mem_cons.1 hj with h | h
    · subst h
      by_cases hu : jgt (f j) acc.1 = true
      · exact fsel_preserve f l (f j) _ (by simpa [hu] using jgt_irrefl (f j))
      · simp only [Bool.not_eq_true] at hu
        exact fsel_preserve f l (f j) _ (by simpa [hu])
    · exact ih h _

/-- The selection fold either keeps the accumulator or lands on a listed
index together with its score. -/
theorem fsel_result (f : ℕ → EV) (l : List ℕ) :
    ∀ (acc : EV × ℕ), fsel f l acc = acc ∨ ∃ k ∈ l, fsel f l acc = (f k, k) := by
  induction l with
  | nil => intro acc; left; rfl
  | cons a l ih =>
    intro acc
    rw [fsel_cons]
    by_cases hu : jgt (f a) acc.1 = true
    · rcases ih (f a, a) with h | ⟨k, hk, h⟩
      · right; exact ⟨a, List.mem_cons_self a l, by simp [hu, h]⟩
      · right; exact ⟨k, List.mem_cons_of_mem a hk, by simp [hu, h]⟩
    · simp only [Bool.not_eq_true] at hu
      rcases ih acc with h | ⟨k, hk, h⟩
      · left; simpa [hu]
      · right; exact ⟨k, List.mem_cons_of_mem a hk, by simpa [hu]⟩

/-- If the index `j` is not the accumulator's index and its score does not
beat the accumulator, the fold never selects `j`. -/
theorem fsel_tail_ne (f : ℕ → EV) (l : List ℕ) (j : ℕ) :
    ∀ (acc : EV × ℕ), acc.2 ≠ j → jgt (f j) acc.1 = false →
      (fsel f l acc).2 ≠ j := by
  induction l with
  | nil => intro acc h1 _; simpa [fsel_nil]
  | cons a l ih =>
    intro acc h1 h2
    rw [fsel_cons]
    by_cases hu : jgt (f a) acc.1 = true
    · have haj : a ≠ j := by
        intro h; rw [h] at hu; rw [hu] at h2; cases h2
      rw [if_pos hu]
      exact ih (f a, a) haj (jgt_update (f a) acc.1 (f j) hu h2)
    · simp only [Bool.not_eq_true] at hu
      simpa [hu] using ih acc h1 h2

/-- If nothing in the list beats the accumulator, the fold returns it. -/
theorem fsel_keep (f : ℕ → EV) (l : List ℕ) :
    ∀ (acc : EV × ℕ), (∀ p ∈ l, jgt (f p) acc.1 = false) → fsel f l acc = acc := by
  induction l with
  | nil => intro acc _; rfl
  | cons a l ih =>
    intro acc h
    rw [fsel_cons]
    have ha := h a (List.mem_cons_self a l)
    simp only [ha, Bool.false_eq_true, if_false]
    exact ih acc (fun p hp => h p (List.mem_cons_of_mem a hp))

/-- A strictly dominant listed score is always selected, wherever it sits
in the list. -/
theorem fsel_argmax (f : ℕ → EV) (st : ℕ) (l : List ℕ) :
    ∀ (acc : EV × ℕ), st ∈ l →
      (∀ k ∈ l, k ≠ st → jgt (f st) (f k) = true) →
      jgt (f st) acc.1 = true →
      fsel f l acc = (f st, st) := by
  induction l with
  | nil => intro acc h; cases h
  | cons a l ih =>
    intro acc hmem hdom hacc
    rw [fsel_cons]
    by_cases has : a = st
    · subst has
      simp only [hacc, if_true]
      refine fsel_keep f l (f a, a) (fun p hp => ?_)
      by_cases hps : p = a
      · subst hps; exact jgt_irrefl (f p)
      · have := hdom p (List.mem_cons_of_mem a hp) hps
        exact jgt_update (f a) (f p) (f p) (by simpa using this) (jgt_irrefl (f p))
    · have hstl : st ∈ l := by
        rcases List.mem_cons.1 hmem with h | h
        · exact absurd h.symm has
        · exact h
      by_cases hu : jgt (f a) acc.1 = true
      · simp only [hu, if_true]
        exact ih (f a, a) hstl (fun k hk hkst => hdom k (List.mem_cons_of_mem a hk) hkst)
          (hdom a (List.mem_cons_self a l) has)
      · simp only [Bool.not_eq_true] at hu
        simp only [hu, Bool.false_eq_true, if_false]
        exact ih acc hstl (fun k hk hkst => hdom k (List.mem_cons_of_mem a hk) hkst) hacc

theorem fmaxAux_nil (f : ℕ → EV) (acc : EV) : fmaxAux f [] acc = acc := rfl

theorem fmaxAux_cons (f : ℕ → EV) (a : ℕ) (l : List ℕ) (acc : EV) :
    fmaxAux f (a :: l) acc = fmaxAux f l (if jgt (f a) acc then f a else acc) := rfl

/-- A value that does not beat the accumulator never beats the final max. -/
theorem fmaxAux_preserve (f : ℕ → EV) (l : List ℕ) (x : EV) :
    ∀ (acc : EV), jgt x acc = false → jgt x (fmaxAux f l acc) = false := by
  induction l with
  | nil => intro acc h; simpa [fmaxAux_nil]
  | cons a l ih =>
    intro acc h
    rw [fmaxAux_cons]
    by_cases hu : jgt (f a) acc = true
    · exact ih _ (by simpa [hu] using jgt_update (f a) acc x hu h)
    · simp only [Bool.not_eq_true] at hu
      simpa [hu] using ih acc h

/-- No listed candidate strictly beats the final max. -/
theorem fmaxAux_no_beat (f : ℕ → EV) (l : List ℕ) (p : ℕ) (hp : p ∈ l) :
    ∀ (acc : EV), jgt (f p) (fmaxAux f l acc) = false := by
  induction l with
  | nil => cases hp
  | cons a l ih =>
    intro acc
    rw [fmaxAux_cons]
    rcases List.mem_cons.1 hp with h | h
    · subst h
      by_cases hu : jgt (f p) acc = true
      · exact fmaxAux_preserve f l (f p) _ (by simpa [hu] using jgt_irrefl (f p))
      · simp only [Bool.not_eq_true] at hu
        exact fmaxAux_preserve f l (f p) _ (by simpa [hu])
    · exact ih h _

/-- The max fold either keeps the accumulator or returns a listed value. -/
theorem fmaxAux_result (f : ℕ → EV) (l : List ℕ) :
    ∀ (acc : EV), fmaxAux f l acc = acc ∨ ∃ p ∈ l, fmaxAux f l acc = f p := by
  induction l with
  | nil => intro acc; left; rfl
  | cons a l ih =>
    intro acc
    rw [fmaxAux_cons]
    by_cases hu : jgt (f a) acc = true
    · rcases ih (f a) with h | ⟨k, hk, h⟩
      · right; exact ⟨a, List.mem_cons_self a l, by simp [hu, h]⟩
      · right; exact ⟨k, List.mem_cons_of_mem a hk, by simp [hu, h]⟩
    · simp only [Bool.not_eq_true] at hu
      rcases ih acc with h | ⟨k, hk, h⟩
      · left; simpa [hu]
      · right; exact ⟨k, List.mem_cons_of_mem a hk, by simpa [hu]⟩

/-! ### Facts about the transition matrix and score reads -/

theorem legalTargets_self (p : ℕ) (hp : p < 9) : p ∈ legalTargets p := by
  revert hp; revert p; decide

theorem transMat_self (p : ℕ) (hp : p < 9) : transMat p p = 2 := by
  simp [transMat, legalTargets_self p hp, SELF_TRANSITION_BONUS]

theorem transMat_illegal (p s : ℕ) (h : s ∉ legalTargets p) :
    transMat p s = ILLEGAL_PENALTY := by
  simp [transMat, h]

theorem transMat_le_two (p s : ℕ) : transMat p s ≤ 2 := by
  unfold transMat SELF_TRANSITION_BONUS TRANSITION_PENALTY ILLEGAL_PENALTY
  split
  · split <;> norm_num
  · norm_num

theorem transMat_offdiag_nonpos (p s : ℕ) (h : p ≠ s) : transMat p s ≤ 0 := by
  unfold transMat SELF_TRANSITION_BONUS TRANSITION_PENALTY ILLEGAL_PENALTY
  split
  · simp [h]
  · norm_num

theorem jadd_nan_right (x : EV) : jadd x .nan = .nan := by cases x <;> rfl

theorem jadd_fin_fin (a b : ℚ) : jadd (.fin a) (.fin b) = .fin (a + b) := rfl

theorem readL_favorRow (s : ℕ) (M : ℚ) (k : ℕ) (hk : k < 9) :
    readL (favorRow s M) k = .fin (if k = s then M else 0) := by
  unfold readL favorRow
  rw [List.get?_map, List.get?_range hk]
  by_cases h : k = s <;> simp [h]

theorem readL_replicate_nan (n i : ℕ) : readL (List.replicate n EV.nan) i = .nan := by
  unfold readL
  rcases h : (List.replicate n EV.nan).get? i with _ | x
  · rfl
  · simpa using List.eq_of_mem_replicate (List.get?_mem h)

theorem fmaxAux_keep (f : ℕ → EV) (l : List ℕ) :
    ∀ (acc : EV), (∀ p ∈ l, jgt (f p) acc = false) → fmaxAux f l acc = acc := by
  induction l with
  | nil => intro acc _; rfl
  | cons a l ih =>
    intro acc h
    rw [fmaxAux_cons]
    have ha := h a (List.mem_cons_self a l)
    simp only [ha, Bool.false_eq_true, if_false]
    exact ih acc (fun p hp => h p (List.mem_cons_of_mem a hp))

theorem fsel_append (f : ℕ → EV) (l₁ l₂ : List ℕ) (acc : EV × ℕ) :
    fsel f (l₁ ++ l₂) acc = fsel f l₂ (fsel f l₁ acc) := by
  simp [fsel, List.foldl_append]

/-! ### C4 — no one-step jump along a grammar-illegal edge -/

/-- C4: for every persisted phase `p` and every target phase `s` with no
grammar edge `p → s`, a single decode call whose score row favors `s` by
any margin `M` below the breaking point `1002` (the illegal penalty `1000`
plus the self-transition bonus `2`) does not return `s`: the decoder never
jumps along a grammar-illegal edge in one step. -/
theorem decodeLast_no_illegal_jump (p s : ℕ) (M : ℚ) (hp : p < 9) (hs : s < 9)
    (hill : s ∉ legalTargets p) (hM : M < 1002) :
    decodeIdx (favorRow s M) 1 p ≠ s := by
  intro hEq
  have hps : p ≠ s := fun h => hill (h ▸ legalTargets_self p hp)
  set F := finalScores (favorRow s M) 1 p with hFdef
  have hF : F = initS (favorRow s M) p := rfl
  have hFp : F p = .fin 2 := by
    rw [hF]
    simp [initS, readL_favorRow s M p hp, jadd_fin_fin, transMat_self p hp, if_neg hps]
  have hFs : F s = .fin (-1000 + M) := by
    rw [hF]
    simp [initS, readL_favorRow s M s hs, jadd_fin_fin, transMat_illegal p s hill,
      ILLEGAL_PENALTY]
  have hbeat : jgt (F p) (F s) = true := by
    rw [hFp, hFs]
    simp only [jgt, decide_eq_true_eq]
    linarith
  have hnb := fsel_no_beat F (List.range 9) p (List.mem_range.2 hp) (.ninf, 0)
  have hsel : (fsel F (List.range 9) (.ninf, 0)).2 = s := hEq
  rcases fsel_result F (List.range 9) (.ninf, 0) with hres | ⟨k, hk, hres⟩
  · rw [hres] at hnb
    rw [hFp] at hnb
    cases hnb
  · rw [hres] at hsel hnb
    simp only at hsel hnb
    rw [hsel] at hnb
    rw [hbeat] at hnb
    cases hnb

/-- Witness for C4 at a concrete input: persisted phase STANDING (0),
illegally favoring HIKE (2) by 500. -/
theorem decodeLast_no_illegal_jump_witness :
    (0:ℕ) < 9 ∧ (2:ℕ) < 9 ∧ 2 ∉ legalTargets 0 ∧ (500:ℚ) < 1002 ∧
      decodeIdx (favorRow 2 500) 1 0 ≠ 2 :=
  ⟨by norm_num, by norm_num, by decide, by norm_num,
   decodeLast_no_illegal_jump 0 2 500 (by norm_num) (by norm_num) (by decide)
     (by norm_num)⟩

/-! ### C10 — selection invariants of `decodeLast` -/

theorem getD_PHASES_mem (m : ℕ) (hm : m ≤ 8) : PHASES.getD m "undefined" ∈ PHASES := by
  revert hm; revert m; decide

theorem decodeIdx_le_8 (logits : List EV) (steps st : ℕ) :
    decodeIdx logits steps st ≤ 8 := by
  unfold decodeIdx
  rcases fsel_result (finalScores logits steps st) (List.range 9) (.ninf, 0) with
    hres | ⟨k, hk, hres⟩
  · rw [hres]; exact Nat.zero_le 8
  · rw [hres]; exact Nat.lt_succ_iff.1 (List.mem_range.1 hk)

/-- C10: `decodeLast` always returns one of the nine phase labels and a
persisted state index between 0 and 8 (first conjunct); among tied final
scores the lowest index wins, because the winner loop updates on strict
`>` only (second conjunct); and an all-NaN logits array yields index 0,
STANDING, since NaN never wins a comparison (third conjunct). -/
theorem decodeLast_range_tie_nan :
    (∀ (logits : List EV) (steps st : ℕ),
        decodeIdx logits steps st ≤ 8 ∧ decodePhase logits steps st ∈ PHASES) ∧
    (∀ (logits : List EV) (steps st i j : ℕ), i < j → j < 9 →
        finalScores logits steps st i = finalScores logits steps st j →
        decodeIdx logits steps st ≠ j) ∧
    (∀ (n steps st : ℕ), decodeIdx (List.replicate n EV.nan) steps st = 0) := by
  refine ⟨fun logits steps st => ⟨decodeIdx_le_8 logits steps st, ?_⟩,
    fun logits steps st i j hij hj htie => ?_, fun n steps st => ?_⟩
  · exact getD_PHASES_mem _ (decodeIdx_le_8 logits steps st)
  · -- tie goes to the lower index
    set F := finalScores logits steps st with hFdef
    have hsplit : List.range 9 = List.range (i + 1) ++
        (List.range (9 - (i + 1))).map (fun x => (i + 1) + x) := by
      rw [← List.range_add]
      congr 1
      omega
    intro hEq
    have hsel : (fsel F (List.range 9) (.ninf, 0)).2 = j := hEq
    rw [hsplit, fsel_append] at hsel
    set acc₁ := fsel F (List.range (i + 1)) (.ninf, 0) with hacc₁
    have hne : acc₁.2 ≠ j := by
      rcases fsel_result F (List.range (i + 1)) (.ninf, 0) with hres | ⟨k, hk, hres⟩
      · rw [hacc₁, hres]; omega
      · rw [hacc₁, hres]
        have := List.mem_range.1 hk
        simp only
        omega
    have hnb : jgt (F j) acc₁.1 = false := by
      rw [← htie]
      exact fsel_no_beat F (List.range (i + 1)) i (List.mem_range.2 (by omega)) _
    exact fsel_tail_ne F _ j acc₁ hne hnb hsel
  · -- all-NaN input selects index 0
    have hread : ∀ k, readL (List.replicate n EV.nan) k = .nan :=
      fun k => readL_replicate_nan n k
    have hV0 : ∀ k, VS (List.replicate n EV.nan) st 0 k = .nan := by
      intro k
      simp [VS, initS, hread, jadd_nan_right]
    have hVt : ∀ t k, VS (List.replicate n EV.nan) st (t + 1) k = .ninf := by
      intro t k
      show stepS _ _ _ _ = _
      unfold stepS
      refine fmaxAux_keep _ _ _ (fun p _ => ?_)
      rw [hread, jadd_nan_right]
      rfl
    have hFS : ∀ k, jgt (finalScores (List.replicate n EV.nan) steps st k)
        ((EV.ninf, 0) : EV × ℕ).1 = false := by
      intro k
      unfold finalScores
      rcases hsteps : steps - 1 with _ | t
      · rw [hV0 k]; rfl
      · rw [hVt t k]; rfl
    unfold decodeIdx
    rw [fsel_keep _ _ _ (fun p _ => hFS p)]

set_option maxRecDepth 100000 in
/-- Witness for C10's quantified conjuncts at concrete inputs: a tie between
final scores of phases 4 and 5 picks the lower (decoder does not pick 5),
and an all-NaN array decodes to 0. -/
theorem decodeLast_range_tie_nan_witness :
    (decodeIdx [] 1 0 ≤ 8 ∧ decodePhase [] 1 0 ∈ PHASES) ∧
    decodeIdx (List.replicate 18 (EV.fin 0)) 2 0 ≠ 5 ∧
    decodeIdx (List.replicate 3 EV.nan) 2 1 = 0 :=
  ⟨decodeLast_range_tie_nan.1 [] 1 0,
   decodeLast_range_tie_nan.2.1 (List.replicate 18 (EV.fin 0)) 2 0 4 5 (by norm_num)
     (by norm_num) (of_decide_eq_true (by with_unfolding_all rfl)),
   decodeLast_range_tie_nan.2.2 3 2 1⟩

/-! ### C5 — uniform scores keep the persisted phase -/

theorem readL_replicate_fin (n k : ℕ) (c : ℚ) (hk : k < n) :
    readL (List.replicate n (EV.fin c)) k = .fin c := by
  unfold readL
  rcases h : (List.replicate n (EV.fin c)).get? k with _ | x
  · rw [List.get?_eq_none] at h
    simp only [List.length_replicate] at h
    omega
  · simpa using List.eq_of_mem_replicate (List.get?_mem h)

/-- If some listed candidate attains `r` and every listed candidate is
finite with value at most `r`, the max fold returns exactly `r`. -/
theorem fmaxAux_top (f : ℕ → EV) (l : List ℕ) (p₀ : ℕ) (r : ℚ)
    (hmem : p₀ ∈ l) (hp₀ : f p₀ = .fin r)
    (hub : ∀ p ∈ l, ∀ q, f p = .fin q → q ≤ r)
    (hfin : ∀ p ∈ l, ∃ q, f p = .fin q) :
    fmaxAux f l .ninf = .fin r := by
  rcases fmaxAux_result f l .ninf with hres | ⟨k, hk, hres⟩
  · have hnb := fmaxAux_no_beat f l p₀ hmem .ninf
    rw [hres, hp₀] at hnb
    cases hnb
  · obtain ⟨q, hq⟩ := hfin k hk
    have hub' := hub k hk q hq
    have hnb := fmaxAux_no_beat f l p₀ hmem .ninf
    rw [hres, hp₀, hq] at hnb
    simp only [jgt, decide_eq_false_iff_not, not_lt] at hnb
    rw [hres, hq]
    congr 1
    linarith

/-- If every listed candidate is finite with value at most `b` (and the
list is inhabited), the max fold returns a finite value at most `b`. -/
theorem fmaxAux_bound (f : ℕ → EV) (l : List ℕ) (b : ℚ) (p₀ : ℕ) (hmem : p₀ ∈ l)
    (hfin : ∀ p ∈ l, ∃ q, f p = .fin q ∧ q ≤ b) :
    ∃ q, fmaxAux f l .ninf = .fin q ∧ q ≤ b := by
  rcases fmaxAux_result f l .ninf with hres | ⟨k, hk, hres⟩
  · obtain ⟨q, hq, _⟩ := hfin p₀ hmem
    have hnb := fmaxAux_no_beat f l p₀ hmem .ninf
    rw [hres, hq] at hnb
    cases hnb
  · obtain ⟨q, hq, hqb⟩ := hfin k hk
    exact ⟨q, by rw [hres, hq], hqb⟩

/-- C5: decoding `steps ≥ 1` rows of all-equal class scores `c` from any
persisted phase returns that phase and stores it back unchanged: along the
DP the persisted phase keeps a lead of the self-transition bonus `2` over
every other phase, so the uninformative scores never move the decoder. -/
theorem decodeLast_uniform_keeps_state (st steps : ℕ) (c : ℚ)
    (hst : st < 9) (hsteps : 1 ≤ steps) :
    decodeIdx (List.replicate (9 * steps) (EV.fin c)) steps st = st := by
  set L := List.replicate (9 * steps) (EV.fin c) with hL
  have hread : ∀ k, k < 9 * steps → readL L k = .fin c := by
    intro k hk
    rw [hL]
    exact readL_replicate_fin _ k c hk
  have hInv : ∀ t, t < steps →
      (VS L st t st = .fin (((t : ℚ) + 1) * (c + 2))) ∧
      (∀ s, s < 9 → s ≠ st →
        ∃ q, VS L st t s = .fin q ∧ q ≤ ((t : ℚ) + 1) * (c + 2) - 2) := by
    intro t
    induction t with
    | zero =>
      intro _
      constructor
      · show initS L st st = _
        unfold initS
        rw [hread st (by omega), transMat_self st hst, jadd_fin_fin]
        congr 1
        push_cast
        ring
      · intro s hs hne
        show ∃ q, initS L st s = _ ∧ _
        unfold initS
        rw [hread s (by omega), jadd_fin_fin]
        refine ⟨transMat st s + c, rfl, ?_⟩
        have := transMat_offdiag_nonpos st s (fun h => hne h.symm)
        push_cast
        linarith
    | succ t ih =>
      intro ht
      obtain ⟨ihTop, ihRest⟩ := ih (by omega)
      have hcand : ∀ s, s < 9 → VS L st (t + 1) s =
          fmaxAux (fun p => jadd (jadd (VS L st t p) (.fin (transMat p s)))
            (.fin c)) (List.range 9) .ninf := by
        intro s hs
        show stepS L (VS L st t) (t + 1) s = _
        unfold stepS
        rw [hread ((t + 1) * 9 + s) (by omega)]
      constructor
      · rw [hcand st hst]
        push_cast
        refine fmaxAux_top _ _ st (((t : ℚ) + 1 + 1) * (c + 2))
          (List.mem_range.2 hst) ?_ ?_ ?_
        · rw [ihTop, transMat_self st hst, jadd_fin_fin, jadd_fin_fin]
          congr 1
          push_cast
          ring
        · intro p hp q hq
          by_cases hpst : p = st
          · subst hpst
            rw [ihTop, transMat_self p hst, jadd_fin_fin, jadd_fin_fin] at hq
            injection hq with h
            rw [← h]
            push_cast
            ring_nf
            linarith [le_refl (0 : ℚ)]
          · obtain ⟨v, hv, hvb⟩ := ihRest p (List.mem_range.1 hp) hpst
            rw [hv, jadd_fin_fin, jadd_fin_fin] at hq
            injection hq with h
            have hT := transMat_le_two p st
            push_cast at hvb ⊢
            linarith [h ▸ le_refl q]
        · intro p hp
          by_cases hpst : p = st
          · subst hpst
            rw [ihTop, jadd_fin_fin, jadd_fin_fin]
            exact ⟨_, rfl⟩
          · obtain ⟨v, hv, _⟩ := ihRest p (List.mem_range.1 hp) hpst
            rw [hv, jadd_fin_fin, jadd_fin_fin]
            exact ⟨_, rfl⟩
      · intro s hs hne
        rw [hcand s hs]
        push_cast
        refine fmaxAux_bound _ _ _ st (List.mem_range.2 hst) ?_
        intro p hp
        by_cases hpst : p = st
        · subst hpst
          rw [ihTop, jadd_fin_fin, jadd_fin_fin]
          refine ⟨_, rfl, ?_⟩
          have := transMat_offdiag_nonpos p s (fun h => hne h.symm)
          push_cast
          linarith
        · obtain ⟨v, hv, hvb⟩ := ihRest p (List.mem_range.1 hp) hpst
          rw [hv, jadd_fin_fin, jadd_fin_fin]
          refine ⟨_, rfl, ?_⟩
          have hT := transMat_le_two p s
          push_cast at hvb ⊢
          linarith
  obtain ⟨hTop, hRest⟩ := hInv (steps - 1) (by omega)
  have hargmax := fsel_argmax (finalScores L steps st) st (List.range 9) (.ninf, 0)
    (List.mem_range.2 hst) ?_ ?_
  · unfold decodeIdx
    rw [hargmax]
  · intro k hk hkst
    obtain ⟨q, hq, hqb⟩ := hRest k (List.mem_range.1 hk) hkst
    show jgt (VS L st (steps - 1) st) (VS L st (steps - 1) k) = true
    rw [hTop, hq]
    simp only [jgt, decide_eq_true_eq]
    linarith
  · show jgt (VS L st (steps - 1) st) EV.ninf = true
    rw [hTop]
    rfl

/-- Witness for C5: two uniform rows of value 5 from persisted phase 3
decode back to phase 3. -/
theorem decodeLast_uniform_keeps_state_witness :
    (3:ℕ) < 9 ∧ (1:ℕ) ≤ 2 ∧
      decodeIdx (List.replicate (9 * 2) (EV.fin 5)) 2 3 = 3 :=
  ⟨by norm_num, by norm_num,
   decodeLast_uniform_keeps_state 3 2 5 (by norm_num) (by norm_num)⟩

/-! ### C2 — behaviour on a row-count mismatch -/

/-- C2 counterexample: `decodeLast` has no row-count validation and no
failure path — called with a single 9-entry score row but `steps = 4`
(a mismatch), it silently returns the phase STANDING instead of raising
any failure. -/
theorem decodeLast_mismatch_returns_phase :
    decodePhase (List.replicate 9 (EV.fin 1)) 4 0 = "STANDING" :=
  of_decide_eq_true (by with_unfolding_all rfl)

/-- C2 (amended): `decodeLast` never raises on a row-count mismatch; it
silently decodes.  Whenever the logits array holds at most one row
(length ≤ 9) but `steps ≥ 2` is requested, the out-of-range reads of rows
1.. poison every DP score (NaN, then -Infinity), and the decoder returns
index 0 (STANDING) from any persisted state. -/
theorem decodeLast_mismatch_silent (logits : List EV) (steps st : ℕ)
    (hlen : logits.length ≤ 9) (hsteps : 2 ≤ steps) :
    decodeIdx logits steps st = 0 := by
  have hread : ∀ i, 9 ≤ i → readL logits i = .nan := by
    intro i hi
    unfold readL
    rw [List.get?_eq_none.2 (by omega)]
    rfl
  have hVt : ∀ t k, VS logits st (t + 1) k = .ninf := by
    intro t k
    show stepS _ _ _ _ = _
    unfold stepS
    refine fmaxAux_keep _ _ _ (fun p _ => ?_)
    rw [hread ((t + 1) * 9 + k) (by omega), jadd_nan_right]
    rfl
  unfold decodeIdx
  have hkeep : fsel (finalScores logits steps st) (List.range 9) (.ninf, 0) =
      ((.ninf, 0) : EV × ℕ) := by
    refine fsel_keep _ _ _ (fun p _ => ?_)
    unfold finalScores
    rcases hs : steps - 1 with _ | t
    · omega
    · rw [hVt t p]
      rfl
  rw [hkeep]

/-- Witness for C2's amended theorem: one row of ones decoded with
`steps = 4` from persisted state 0 yields index 0. -/
theorem decodeLast_mismatch_silent_witness :
    (List.replicate 9 (EV.fin 1)).length ≤ 9 ∧ (2:ℕ) ≤ 4 ∧
      decodeIdx (List.replicate 9 (EV.fin 1)) 4 0 = 0 :=
  ⟨by simp, by norm_num,
   decodeLast_mismatch_silent (List.replicate 9 (EV.fin 1)) 4 0 (by simp) (by norm_num)⟩

/-! ### C1 — what the DP consumes: raw scores, not log-probabilities -/

/-- The row-0 DP seed of `decodeLast` over exact reals: transition cost out
of the persisted state plus the **raw** score — mirroring `initS`
(viterbiDecoder.ts, step 1 of `decodeLast`), with real-valued scores so it
can be compared against the spec's log-probability pipeline. -/
noncomputable def rowSeedScore (st : ℕ) (row : ℕ → ℝ) (s : ℕ) : ℝ :=
  ((transMat st s : ℚ) : ℝ) + row s

/-- Modelled from the spec (§4.4 step 1), for the refinement comparison of
claim C1 only — this conversion does not occur anywhere in the source:
the numerically stable log-probability of phase `s` in a score row,
obtained by subtracting the row maximum, exponentiating, summing and
taking the logarithm. -/
noncomputable def specLogProb (row : ℕ → ℝ) (s : ℕ) : ℝ :=
  let m := (Finset.range 9).sup' (Finset.nonempty_range_iff.2 (by norm_num)) row
  (row s - m) - Real.log (∑ j ∈ Finset.range 9, Real.exp (row j - m))

/-- The row-0 DP seed the spec's words prescribe: transition cost plus the
log-probability of the score row. -/
noncomputable def specSeedScore (st : ℕ) (row : ℕ → ℝ) (s : ℕ) : ℝ :=
  ((transMat st s : ℚ) : ℝ) + specLogProb row s

/-- C1 counterexample: on the all-zero score row, the DP seed `decodeLast`
actually computes (raw consumption, `rowSeedScore`) differs from the seed
the spec's mandated log-probability conversion would produce
(`specSeedScore` = raw minus log 9 here): the forward DP consumes raw
scores, not log-probabilities. -/
theorem decodeLast_seed_not_logprob :
    specSeedScore 0 (fun _ => 0) 0 ≠ rowSeedScore 0 (fun _ => 0) 0 := by
  unfold specSeedScore rowSeedScore specLogProb
  simp only [Finset.sup'_const, sub_zero, sub_self, Real.exp_zero, Finset.sum_const,
    Finset.card_range, nsmul_eq_mul, mul_one, zero_sub, Nat.cast_ofNat]
  intro h
  have hlog : Real.log 9 = 0 := by
    have hc := add_left_cancel h
    linarith
  rcases Real.log_eq_zero.1 hlog with h9 | h9 | h9 <;> norm_num at h9

/-- The per-row additive shift on decoder values: finite values move by
`a`; NaN and -Infinity are fixed (as under any additive renormalization). -/
def evshift (a : ℚ) : EV → EV
  | .nan => .nan
  | .ninf => .ninf
  | .fin q => .fin (q + a)

theorem jadd_evshift_left (a : ℚ) (x y : EV) :
    jadd (evshift a x) y = evshift a (jadd x y) := by
  cases x <;> cases y <;> simp [evshift, jadd, add_right_comm]

theorem jadd_evshift_right (a : ℚ) (x y : EV) :
    jadd x (evshift a y) = evshift a (jadd x y) := by
  cases x <;> cases y <;> simp [evshift, jadd, add_assoc]

theorem jgt_evshift (a : ℚ) (x y : EV) :
    jgt (evshift a x) (evshift a y) = jgt x y := by
  cases x <;> cases y <;> simp [evshift, jgt]

theorem evshift_evshift (a b : ℚ) (x : EV) :
    evshift a (evshift b x) = evshift (b + a) x := by
  cases x <;> simp [evshift, add_assoc]

theorem fmaxAux_congr (f g : ℕ → EV) (l : List ℕ) (acc : EV)
    (h : ∀ p ∈ l, f p = g p) : fmaxAux f l acc = fmaxAux g l acc := by
  induction l generalizing acc with
  | nil => rfl
  | cons a l ih =>
    rw [fmaxAux_cons, fmaxAux_cons, h a (List.mem_cons_self a l)]
    exact ih _ (fun p hp => h p (List.mem_cons_of_mem a hp))

theorem fsel_congr (f g : ℕ → EV) (l : List ℕ) (acc : EV × ℕ)
    (h : ∀ p ∈ l, f p = g p) : fsel f l acc = fsel g l acc := by
  induction l generalizing acc with
  | nil => rfl
  | cons a l ih =>
    rw [fsel_cons, fsel_cons, h a (List.mem_cons_self a l)]
    exact ih _ (fun p hp => h p (List.mem_cons_of_mem a hp))

theorem fmaxAux_evshift (f : ℕ → EV) (a : ℚ) (l : List ℕ) :
    ∀ (acc : EV), fmaxAux (fun p => evshift a (f p)) l (evshift a acc) =
      evshift a (fmaxAux f l acc) := by
  induction l with
  | nil => intro acc; rfl
  | cons x l ih =>
    intro acc
    rw [fmaxAux_cons, fmaxAux_cons, jgt_evshift]
    by_cases hu : jgt (f x) acc = true
    · rw [if_pos hu, if_pos hu]
      exact ih (f x)
    · simp only [Bool.not_eq_true] at hu
      rw [hu, if_neg (by simp), if_neg (by simp)]
      exact ih acc

theorem fsel_evshift (f : ℕ → EV) (a : ℚ) (l : List ℕ) :
    ∀ (b : EV) (i : ℕ),
      fsel (fun s => evshift a (f s)) l (evshift a b, i) =
        (evshift a (fsel f l (b, i)).1, (fsel f l (b, i)).2) := by
  induction l with
  | nil => intro b i; rfl
  | cons x l ih =>
    intro b i
    rw [fsel_cons, fsel_cons]
    simp only [jgt_evshift]
    by_cases hu : jgt (f x) b = true
    · rw [if_pos hu, if_pos hu]
      exact ih (f x) x
    · simp only [Bool.not_eq_true] at hu
      rw [hu, if_neg (by simp), if_neg (by simp)]
      exact ih b i

/-- The accumulated per-row shift over rows `0..t`. -/
def csum (c : ℕ → ℚ) : ℕ → ℚ
  | 0 => c 0
  | t + 1 => csum c t + c (t + 1)

/-- Adding a constant `c t` to every score of row `t` shifts every DP score
of `decodeLast` after row `t` by the accumulated constant, NaN and
-Infinity staying fixed. -/
theorem VS_shift (logits logits' : List EV) (st : ℕ) (c : ℕ → ℚ)
    (h : ∀ i, readL logits' i = evshift (c (i / 9)) (readL logits i)) :
    ∀ t s, s < 9 → VS logits' st t s = evshift (csum c t) (VS logits st t s) := by
  intro t
  induction t with
  | zero =>
    intro s hs
    show initS logits' st s = evshift (csum c 0) (initS logits st s)
    unfold initS
    rw [h s, show s / 9 = 0 by omega, jadd_evshift_right]
    rfl
  | succ t ih =>
    intro s hs
    show stepS logits' (VS logits' st t) (t + 1) s =
      evshift (csum c (t + 1)) (stepS logits (VS logits st t) (t + 1) s)
    unfold stepS
    rw [fmaxAux_congr _ (fun p => evshift (csum c (t + 1))
        (jadd (jadd (VS logits st t p) (.fin (transMat p s)))
          (readL logits ((t + 1) * 9 + s)))) _ .ninf ?_]
    · rw [show (EV.ninf) = evshift (csum c (t + 1)) .ninf from rfl]
      exact fmaxAux_evshift _ _ _ .ninf
    · intro p hp
      rw [ih p (List.mem_range.1 hp), h ((t + 1) * 9 + s),
        show ((t + 1) * 9 + s) / 9 = t + 1 by omega,
        jadd_evshift_left, jadd_evshift_right, jadd_evshift_left, evshift_evshift]
      rfl

/-- C1 (amended): `decodeLast` consumes the raw scores — no log-softmax
conversion happens (`decodeLast_seed_not_logprob`).  This cannot change
the decoded phase: converting a row to log-probabilities only subtracts a
per-row constant (the row's log-sum-exp), and the selected index of the DP
is invariant under any per-row additive shift of the scores.  For any two
logits arrays related entry-wise by a per-row shift, `decodeLast` returns
the same phase index and persisted state. -/
theorem decodeLast_row_shift_invariant (logits logits' : List EV) (c : ℕ → ℚ)
    (steps st : ℕ)
    (h : ∀ i, readL logits' i = evshift (c (i / 9)) (readL logits i)) :
    decodeIdx logits' steps st = decodeIdx logits steps st := by
  unfold decodeIdx finalScores
  have hcong : fsel (VS logits' st (steps - 1)) (List.range 9) (.ninf, 0) =
      fsel (fun s => evshift (csum c (steps - 1)) (VS logits st (steps - 1) s))
        (List.range 9) (.ninf, 0) :=
    fsel_congr _ _ _ _
      (fun p hp => VS_shift logits logits' st c h (steps - 1) p (List.mem_range.1 hp))
  rw [hcong]
  have hsel := fsel_evshift (VS logits st (steps - 1)) (csum c (steps - 1))
    (List.range 9) .ninf 0
  rw [show evshift (csum c (steps - 1)) .ninf = .ninf from rfl] at hsel
  rw [hsel]

/-- Witness for C1's amended theorem: shifting a one-row array of ones by
the constant 2 per row leaves the decoded index unchanged. -/
theorem decodeLast_row_shift_invariant_witness :
    decodeIdx (List.replicate 9 (EV.fin 3)) 1 0 =
      decodeIdx (List.replicate 9 (EV.fin 1)) 1 0 := by
  refine decodeLast_row_shift_invariant (List.replicate 9 (EV.fin 1))
    (List.replicate 9 (EV.fin 3)) (fun _ => 2) 1 0 (fun i => ?_)
  rcases Nat.lt_or_ge i 9 with hi | hi
  · rw [readL_replicate_fin 9 i 3 hi, readL_replicate_fin 9 i 1 hi]
    simp only [evshift]
    norm_num
  · have h3 : readL (List.replicate 9 (EV.fin 3)) i = .nan := by
      unfold readL
      rw [List.get?_eq_none.2 (by simp; omega)]
      rfl
    have h1 : readL (List.replicate 9 (EV.fin 1)) i = .nan := by
      unfold readL
      rw [List.get?_eq_none.2 (by simp; omega)]
      rfl
    rw [h3, h1]
    rfl

/-! ### OneEuroFilter (oneEuro.ts) -/

/-- The `OneEuroFilter` object: configuration (constructor defaults) plus
the mutable memory, with `null` modelled as `none`. -/
structure OneEuroFilter where
  minCutoff : ℝ := 1 / 2
  beta : ℝ := 1 / 20
  dCutoff : ℝ := 1
  xPrev : Option ℝ := none
  dxPrev : Option ℝ := none
  tPrev : Option ℝ := none

/-- Source `reset()`: clear the filter memory. -/
def OneEuroFilter.resetState (f : OneEuroFilter) : OneEuroFilter :=
  { f with xPrev := none, dxPrev := none, tPrev := none }

/-- Source `smoothingFactor(te, cutoff)`. -/
noncomputable def smoothingFactor (te cutoff : ℝ) : ℝ :=
  let r := 2 * Real.pi * cutoff * te
  r / (r + 1)

/-- Source `exponentialSmoothing(a, x, xPrev)`. -/
def exponentialSmoothing (a x xPrev : ℝ) : ℝ := a * x + (1 - a) * xPrev

/-- Source `filter(tMs, x)`: returns the mutated filter and the emitted value.
The non-null assertions (`this.xPrev!`) of the source are modelled with
`Option.getD 0`; in every state in which those branches run, the fields
are `some`, so the default is never consulted. -/
noncomputable def OneEuroFilter.filterStep (f₀ : OneEuroFilter) (tMs x : ℝ) :
    OneEuroFilter × ℝ :=
  let t := tMs / 1000
  -- loop/seek detection: if time moved backward, reset immediately
  let f := match f₀.tPrev with
    | some tp => if t < tp then f₀.resetState else f₀
    | none => f₀
  match f.tPrev with
  | none => ({ f with xPrev := some x, dxPrev := some 0, tPrev := some t }, x)
  | some tp =>
    let te := t - tp
    if te ≤ 0 then (f, f.xPrev.getD 0)
    else
      let ad := smoothingFactor te f.dCutoff
      let dx := (x - f.xPrev.getD 0) / te
      let dxHat := exponentialSmoothing ad dx (f.dxPrev.getD 0)
      let cutoff := f.minCutoff + f.beta * |dxHat|
      let a := smoothingFactor te cutoff
      let xHat := exponentialSmoothing a x (f.xPrev.getD 0)
      ({ f with xPrev := some xHat, dxPrev := some dxHat, tPrev := some t }, xHat)

theorem filterStep_first (f : OneEuroFilter) (tMs x : ℝ) (h : f.tPrev = none) :
    f.filterStep tMs x =
      ({ f with xPrev := some x, dxPrev := some 0, tPrev := some (tMs / 1000) }, x) := by
  simp only [OneEuroFilter.filterStep, h]

theorem filterStep_zero_dt (f : OneEuroFilter) (tMs x tp xp : ℝ)
    (ht : f.tPrev = some tp) (hx : f.xPrev = some xp) (heq : tMs / 1000 = tp) :
    f.filterStep tMs x = (f, xp) := by
  simp only [OneEuroFilter.filterStep, ht, heq, lt_self_iff_false, if_false, sub_self,
    le_refl, if_true, hx, Option.getD_some]

theorem filterStep_negative_dt (f : OneEuroFilter) (tMs x tp : ℝ)
    (ht : f.tPrev = some tp) (hlt : tMs / 1000 < tp) :
    f.filterStep tMs x =
      ({ f with xPrev := some x, dxPrev := some 0, tPrev := some (tMs / 1000) }, x) := by
  simp only [OneEuroFilter.filterStep, ht, if_pos hlt, OneEuroFilter.resetState]

/-- C6 counterexample: with stored previous value 5 at time 2 s, a call at
1 s (negative elapsed time) emits the raw input 7, not the previous value
5 — time moving backward resets the filter and passes the raw value
through, contradicting "the output is the previous value unchanged". -/
theorem oneEuro_negative_dt_not_previous :
    (OneEuroFilter.filterStep
        { xPrev := some 5, dxPrev := some 0, tPrev := some 2 } 1000 7).2 = 7 ∧
      (7 : ℝ) ≠ 5 := by
  constructor
  · rw [filterStep_negative_dt _ 1000 7 2 rfl (by norm_num)]
  · norm_num

/-- C6 (amended): the very first filter call emits the raw input exactly;
a later call with elapsed time exactly zero emits the stored previous
value and leaves the filter state unchanged; a call with negative elapsed
time (time moving backward) resets the filter and emits the raw input. -/
theorem oneEuro_first_and_nonpositive_dt :
    (∀ (f : OneEuroFilter) (tMs x : ℝ), f.tPrev = none →
        (f.filterStep tMs x).2 = x) ∧
    (∀ (f : OneEuroFilter) (tMs x tp xp : ℝ), f.tPrev = some tp →
        f.xPrev = some xp → tMs / 1000 = tp → f.filterStep tMs x = (f, xp)) ∧
    (∀ (f : OneEuroFilter) (tMs x tp : ℝ), f.tPrev = some tp →
        tMs / 1000 < tp → (f.filterStep tMs x).2 = x) := by
  refine ⟨fun f tMs x h => ?_, fun f tMs x tp xp ht hx heq => ?_,
    fun f tMs x tp ht hlt => ?_⟩
  · rw [filterStep_first f tMs x h]
  · exact filterStep_zero_dt f tMs x tp xp ht hx heq
  · rw [filterStep_negative_dt f tMs x tp ht hlt]

/-- Witness for C6's amended theorem at concrete inputs: a fresh filter
passes 3 through; elapsed time zero returns the stored 4 unchanged;
elapsed time negative returns the raw 7. -/
theorem oneEuro_first_and_nonpositive_dt_witness :
    (OneEuroFilter.filterStep {} 0 3).2 = 3 ∧
    OneEuroFilter.filterStep
        { xPrev := some 4, dxPrev := some 0, tPrev := some (2000 / 1000) } 2000 9 =
      ({ xPrev := some 4, dxPrev := some 0, tPrev := some (2000 / 1000) }, 4) ∧
    (OneEuroFilter.filterStep
        { xPrev := some 5, dxPrev := some 0, tPrev := some 2 } 1000 7).2 = 7 :=
  ⟨oneEuro_first_and_nonpositive_dt.1 {} 0 3 rfl,
   oneEuro_first_and_nonpositive_dt.2.1 _ 2000 9 (2000 / 1000) 4 rfl rfl rfl,
   oneEuro_first_and_nonpositive_dt.2.2 _ 1000 7 2 rfl (by norm_num)⟩

/-! ### angle3pt (features.ts) -/

/-- A pose keypoint as consumed by `FeatureBuilder` (features.ts):
3D coordinates plus a confidence score. -/
structure Keypoint3 where
  x : ℝ
  y : ℝ
  z : ℝ
  score : ℝ := 0

/-- The clamped cosine `angle3pt` computes: the normalized dot product of
the rays `b→a` and `b→c` (with the `1e-8` guard added to the denominator),
clamped to `[-1, 1]` — `Math.max(-1, Math.min(1, dot / denom))`. -/
noncomputable def clampedCos (a b c : Keypoint3) : ℝ :=
  let bax := a.x - b.x
  let bay := a.y - b.y
  let baz := a.z - b.z
  let bcx := c.x - b.x
  let bcy := c.y - b.y
  let bcz := c.z - b.z
  let dot := bax * bcx + bay * bcy + baz * bcz
  let magBA := Real.sqrt (bax * bax + bay * bay + baz * baz)
  let magBC := Real.sqrt (bcx * bcx + bcy * bcy + bcz * bcz)
  let denom := magBA * magBC + 1 / 10 ^ 8
  max (-1) (min 1 (dot / denom))

/-- Source `angle3pt` from features.ts: `Math.acos(cosine) * (180 / Math.PI)`. -/
noncomputable def angle3pt (a b c : Keypoint3) : ℝ :=
  Real.arccos (clampedCos a b c) * (180 / Real.pi)

/-- C9: for every keypoint triple (all finite real coordinates), the cosine
fed to `acos` is clamped into `[-1, 1]`, so the computed joint angle is a
well-defined real (never NaN) lying in `[0, 180]` degrees. -/
theorem angle3pt_range (a b c : Keypoint3) :
    (-1 ≤ clampedCos a b c ∧ clampedCos a b c ≤ 1) ∧
      0 ≤ angle3pt a b c ∧ angle3pt a b c ≤ 180 := by
  have hclamp : -1 ≤ clampedCos a b c ∧ clampedCos a b c ≤ 1 := by
    unfold clampedCos
    exact ⟨le_max_left _ _, max_le (by norm_num) (min_le_left _ _)⟩
  refine ⟨hclamp, ?_, ?_⟩
  · unfold angle3pt
    have h1 : 0 ≤ Real.arccos (clampedCos a b c) := Real.arccos_nonneg _
    have h2 : (0 : ℝ) ≤ 180 / Real.pi := by positivity
    exact mul_nonneg h1 h2
  · unfold angle3pt
    have h1 : Real.arccos (clampedCos a b c) ≤ Real.pi := Real.arccos_le_pi _
    have h2 : (0 : ℝ) ≤ 180 / Real.pi := by positivity
    calc Real.arccos (clampedCos a b c) * (180 / Real.pi)
        ≤ Real.pi * (180 / Real.pi) := mul_le_mul_of_nonneg_right h1 h2
      _ = 180 := by
          field_simp

/-! ### Calibration (stores/index.ts `CalibrationData`; `calibrateFromPose`) -/

/-- Source `Side` from the types module. -/
inductive Side where
  | LEFT
  | RIGHT
deriving DecidableEq, Repr

/-- Source `CalibrationQuality` from the types module. -/
inductive CalibrationQuality where
  | good
  | ok
  | poor
  | none
deriving DecidableEq, Repr

/-- Source `CalibrationData` with the store's `defaultCalibration` values as
construction defaults (stores/index.ts lines 57-64). -/
structure CalibrationData where
  heightInches : ℚ := 70
  pxPerMeter : ℚ := 0
  quality : CalibrationQuality := .none
  sideLocked : Bool := false
  side : Option Side := Option.none
  timestamp : ℚ := 0
deriving DecidableEq, Repr

/-- A keypoint as consumed by calibration: normalized y and confidence. -/
structure CalKeypoint where
  y : ℚ
  score : ℚ
deriving DecidableEq, Repr

def MIN_CALIB_CONFIDENCE : ℚ := 3 / 5

def HIGH_CALIB_CONFIDENCE : ℚ := 4 / 5

/-- The 10% head offset the repo's log records for the span correction. -/
def HEAD_OFFSET_FACTOR : ℚ := 11 / 10

def METERS_PER_INCH : ℚ := 127 / 5000

/-- Minimum detection confidence over the landmarks calibration requires:
the top landmark (nose, index 0) and the two bottom landmarks (ankles,
indices 27 and 28); a missing landmark counts as confidence 0. -/
def calibConfidence (kps : List CalKeypoint) : ℚ :=
  min (kps.getD 0 ⟨0, 0⟩).score
    (min (kps.getD 27 ⟨0, 0⟩).score (kps.getD 28 ⟨0, 0⟩).score)

/-- Modelled from the spec: `calibrateFromPose` lives in
`calibration.svelte.ts`, which is not among the repository sources — only
its callers are (CalibrationPanel.svelte line 117, upload/+page.svelte).
Spec §4.2: require a minimum landmark confidence on a top landmark and two
bottom landmarks, rejecting with **no state change** if unmet; compute the
normalized body span as the vertical distance between the top landmark and
the averaged bottom landmarks; correct it by a fixed anthropometric
proportion (the repo log records a 10% head offset over the nose-to-ankle
distance); derive `scale = correctedSpan / heightInMeters`; set the
quality tier from the capture confidence (high → good, else → ok); each
successful call fully overwrites the prior profile. -/
def calibrateFromPose (c : CalibrationData) (kps : List CalKeypoint) (now : ℚ) :
    CalibrationData :=
  if calibConfidence kps < MIN_CALIB_CONFIDENCE then c
  else
    let noseY := (kps.getD 0 ⟨0, 0⟩).y
    let ankleY := ((kps.getD 27 ⟨0, 0⟩).y + (kps.getD 28 ⟨0, 0⟩).y) / 2
    let span := |ankleY - noseY| * HEAD_OFFSET_FACTOR
    { c with
      pxPerMeter := span / (c.heightInches * METERS_PER_INCH),
      quality := if HIGH_CALIB_CONFIDENCE ≤ calibConfidence kps then .good else .ok,
      timestamp := now }

/-- C8: a calibration call that passes the landmark-visibility gate, on a
frame whose averaged ankle height differs from the nose height and with a
positive configured height, produces a strictly positive scale factor;
a call rejected for insufficient landmark visibility leaves the prior
profile (or its absence — the default profile) completely unchanged. -/
theorem calibrateFromPose_pos_or_unchanged :
    (∀ (c : CalibrationData) (kps : List CalKeypoint) (now : ℚ),
        ¬ calibConfidence kps < MIN_CALIB_CONFIDENCE →
        0 < c.heightInches →
        ((kps.getD 27 ⟨0, 0⟩).y + (kps.getD 28 ⟨0, 0⟩).y) / 2 ≠ (kps.getD 0 ⟨0, 0⟩).y →
        0 < (calibrateFromPose c kps now).pxPerMeter) ∧
    (∀ (c : CalibrationData) (kps : List CalKeypoint) (now : ℚ),
        calibConfidence kps < MIN_CALIB_CONFIDENCE →
        calibrateFromPose c kps now = c) := by
  constructor
  · intro c kps now hconf hh hsep
    unfold calibrateFromPose
    rw [if_neg hconf]
    show 0 < _ * HEAD_OFFSET_FACTOR / (c.heightInches * METERS_PER_INCH)
    have hspan : 0 < |((kps.getD 27 ⟨0, 0⟩).y + (kps.getD 28 ⟨0, 0⟩).y) / 2 -
        (kps.getD 0 ⟨0, 0⟩).y| := abs_pos.2 (sub_ne_zero.2 hsep)
    have hden : 0 < c.heightInches * METERS_PER_INCH := by
      unfold METERS_PER_INCH
      positivity
    apply div_pos _ hden
    apply mul_pos hspan
    unfold HEAD_OFFSET_FACTOR
    norm_num
  · intro c kps now hconf
    unfold calibrateFromPose
    rw [if_pos hconf]

/-- Witness for C8 at concrete inputs: a frame with fully confident nose
and ankles (nose at y = 1/10, ankles at y = 9/10) calibrates to a positive
scale; an empty frame (confidence 0) leaves the default profile
unchanged. -/
theorem calibrateFromPose_pos_or_unchanged_witness :
    0 < (calibrateFromPose {}
        ((List.range 29).map (fun i => ⟨if i = 0 then 1/10 else 9/10, 1⟩)) 5).pxPerMeter ∧
    calibrateFromPose {} [] 5 = {} :=
  ⟨calibrateFromPose_pos_or_unchanged.1 {}
      ((List.range 29).map (fun i => ⟨if i = 0 then 1/10 else 9/10, 1⟩)) 5
      (of_decide_eq_true (by with_unfolding_all rfl))
      (of_decide_eq_true (by with_unfolding_all rfl))
      (of_decide_eq_true (by with_unfolding_all rfl)),
   calibrateFromPose_pos_or_unchanged.2 {} [] 5
      (of_decide_eq_true (by with_unfolding_all rfl))⟩

/-! ### SnatchSessionEngine (snatchLogic.ts, side-lock variant) -/

/-- Source `SnatchPhase` from the types module, as an inductive label set. -/
inductive SnatchPhase where
  | STANDING
  | HANDONBELL
  | HIKE
  | PULL
  | FLOAT
  | LOCKOUT
  | DROP
  | CATCH
  | PARK
deriving DecidableEq, Repr

/-- A keypoint as consumed by the session engine (only `y` is read). -/
structure EKeypoint where
  x : ℚ := 0
  y : ℚ := 0
deriving DecidableEq, Repr

/-- A pose result as consumed by the session engine. -/
structure PoseResult where
  keypoints : List EKeypoint
deriving DecidableEq, Repr

/-- Keypoint access `kp[i]`; theorems about branches that read keypoints carry a
33-keypoint length hypothesis so out-of-range defaults are never hit. -/
def kpAt (pose : PoseResult) (i : ℕ) : EKeypoint := pose.keypoints.getD i {}

/-- Source `SnatchState` (snatchLogic.ts). -/
structure SnatchState where
  isSessionActive : Bool
  activeSide : Option Side
  repCount : ℕ
  currentVelocity : ℚ
  peakVelocity : ℚ
  lastPhase : SnatchPhase
  isInConcentric : Bool
  feedback : String
deriving DecidableEq, Repr

/-- The auto-calibration accumulator (`this.calibration`). -/
structure AutoCalib where
  isComplete : Bool
  framesCaptured : ℕ
  neutralWristOffset : ℚ
  maxTorsoLength : ℚ
deriving DecidableEq, Repr

/-- The full mutable state of `SnatchSessionEngine`. -/
structure SnatchSessionEngine where
  state : SnatchState
  hasHiked : Bool
  hasHitLockout : Bool
  isParked : Bool
  parkTimer : ℕ
  standTimer : ℕ
  calib : AutoCalib
deriving DecidableEq, Repr

def SIDE_LOCK_NEAR_ANKLE : ℚ := 3 / 25

def PARK_VELOCITY_MAX : ℚ := 1 / 2

def RESET_DURATION_FRAMES : ℕ := 30

def RESET_TORSO_RATIO : ℚ := 17 / 20

def CALIBRATION_FRAMES : ℕ := 30

/-- The constructor value of `this.state`. -/
def initialSnatchState : SnatchState :=
  { isSessionActive := false, activeSide := Option.none, repCount := 0,
    currentVelocity := 0, peakVelocity := 0, lastPhase := .STANDING,
    isInConcentric := false, feedback := "READY" }

/-- A freshly constructed engine. -/
def initEngine : SnatchSessionEngine :=
  { state := initialSnatchState, hasHiked := false, hasHitLockout := false,
    isParked := false, parkTimer := 0, standTimer := 0,
    calib := { isComplete := false, framesCaptured := 0,
               neutralWristOffset := 0, maxTorsoLength := 0 } }

/-- Source `reset()`: restores the initial state and flags; the auto-calibration
accumulator is deliberately NOT reset (it tracks the user, not the set). -/
def resetEngine (e : SnatchSessionEngine) : SnatchSessionEngine :=
  { e with
      state := initialSnatchState, hasHiked := false, hasHitLockout := false,
      isParked := false, parkTimer := 0, standTimer := 0 }

/-- Source `checkSetupGeometry(pose, side)`: hinge (wrist not above-knee in screen
space, i.e. wrist y not smaller) and wrist-near-ankle proximity. -/
def checkSetupGeometry (pose : PoseResult) (side : Side) : Bool :=
  let idx : ℕ × ℕ × ℕ := match side with
    | .LEFT => (15, 25, 27)
    | .RIGHT => (16, 26, 28)
  if (kpAt pose idx.1).y < (kpAt pose idx.2.1).y then false
  else decide (|(kpAt pose idx.1).y - (kpAt pose idx.2.2).y| < SIDE_LOCK_NEAR_ANKLE)

/-- Source `detectLockPattern(pose)`: LEFT is checked before RIGHT. -/
def detectLockPattern (pose : PoseResult) : Option Side :=
  if checkSetupGeometry pose .LEFT then some .LEFT
  else if checkSetupGeometry pose .RIGHT then some .RIGHT
  else Option.none

/-- Source `runAutoCalibration(pose)` restricted to the accumulator it mutates. -/
def autoCalibUpd (cal : AutoCalib) (pose : PoseResult) : AutoCalib :=
  if pose.keypoints.length < 33 then cal
  else
    let currentTorso := max |(kpAt pose 11).y - (kpAt pose 23).y|
      |(kpAt pose 12).y - (kpAt pose 24).y|
    let cal := if cal.maxTorsoLength < currentTorso then
        { cal with maxTorsoLength := currentTorso } else cal
    if cal.isComplete then cal
    else
      let neutral := cal.neutralWristOffset +
        (((kpAt pose 15).y - (kpAt pose 23).y) + ((kpAt pose 16).y - (kpAt pose 24).y)) / 2
      let frames := cal.framesCaptured + 1
      if CALIBRATION_FRAMES ≤ frames then
        { cal with
            neutralWristOffset := neutral / (CALIBRATION_FRAMES : ℚ),
            framesCaptured := frames, isComplete := true }
      else
        { cal with neutralWristOffset := neutral, framesCaptured := frames }

/-- The method `runAutoCalibration` mutates only `this.calibration`. -/
def runAutoCalibration (e : SnatchSessionEngine) (pose : PoseResult) :
    SnatchSessionEngine :=
  { e with calib := autoCalibUpd e.calib pose }

/-- Source `checkStandingReset(pose)`: only ever true once auto-calibration is
complete; torso extension above the ratio of the calibrated maximum and
both wrists below (screen-space) their hips. -/
def checkStandingReset (e : SnatchSessionEngine) (pose : PoseResult) : Bool :=
  if !e.calib.isComplete then false
  else
    decide (e.calib.maxTorsoLength * RESET_TORSO_RATIO <
        |(kpAt pose 11).y - (kpAt pose 23).y|) &&
      decide ((kpAt pose 23).y < (kpAt pose 15).y) &&
      decide ((kpAt pose 24).y < (kpAt pose 16).y)

/-- Source `lockSession(side)`: activates the session and fixes the side; note it
does NOT touch `repCount` or `peakVelocity`. -/
def lockSession (e : SnatchSessionEngine) (side : Side) : SnatchSessionEngine :=
  { e with
    state := { e.state with
      activeSide := some side, isSessionActive := true,
      feedback := match side with
        | .LEFT => "LOCKED: LEFT"
        | .RIGHT => "LOCKED: RIGHT" },
    isParked := false }

/-- Source `manageActiveSession(pose, velocityMps)`. -/
def manageActiveSession (e : SnatchSessionEngine) (pose : PoseResult) (v : ℚ) :
    SnatchSessionEngine :=
  if e.state.repCount = 0 then
    -- false-start check; park detection is skipped at zero reps
    if checkStandingReset e pose then
      let e := { e with standTimer := e.standTimer + 1 }
      if RESET_DURATION_FRAMES < e.standTimer then resetEngine e else e
    else { e with standTimer := 0 }
  else
    let isHinged := checkSetupGeometry pose (e.state.activeSide.getD .RIGHT)
    let isStill := decide (|v| < PARK_VELOCITY_MAX)
    let e := if isHinged && isStill then
        let e := { e with parkTimer := e.parkTimer + 1 }
        if 15 < e.parkTimer then { e with isParked := true } else e
      else { e with parkTimer := 0 }
    if e.isParked then
      let e := if checkStandingReset e pose then
          let e := { e with standTimer := e.standTimer + 1 }
          if RESET_DURATION_FRAMES < e.standTimer then resetEngine e else e
        else { e with standTimer := 0 }
      if (3 : ℚ) < |v| then { e with isParked := false, parkTimer := 0 } else e
    else e

/-- Source `trackVelocity(phase, velocity)`. -/
def trackVelocity (e : SnatchSessionEngine) (phase : SnatchPhase) (v : ℚ) :
    SnatchSessionEngine :=
  if phase = .PULL ∨ phase = .FLOAT then
    let e := { e with state := { e.state with isInConcentric := true } }
    if e.state.peakVelocity < v then
      { e with state := { e.state with peakVelocity := v } }
    else e
  else if phase = .HIKE ∨ phase = .DROP then
    { e with state := { e.state with isInConcentric := false } }
  else e

/-- Source `handlePhaseTransitions(current)`. -/
def handlePhaseTransitions (e : SnatchSessionEngine) (current : SnatchPhase) :
    SnatchSessionEngine :=
  let prev := e.state.lastPhase
  if current = prev then e
  else
    let e := if current = .HIKE then
        { e with
            hasHiked := true, hasHitLockout := false,
            state := { e.state with peakVelocity := 0, feedback := "HIKE" } }
      else e
    let e := if (current = .LOCKOUT ∨ current = .CATCH) ∧ e.hasHiked = true then
        { e with
            hasHitLockout := true,
            state := { e.state with feedback := "LOCKOUT" } }
      else e
    if ((prev = .LOCKOUT ∨ prev = .CATCH) ∧ (current = .DROP ∨ current = .PARK)) ∧
        e.hasHitLockout = true then
      { e with
          hasHitLockout := false, hasHiked := false,
          state := { e.state with
            repCount := e.state.repCount + 1,
            feedback := "REP " ++ toString (e.state.repCount + 1) } }
    else e

/-- Source `update(phase, pose, velocityMps)`: the per-frame engine entry point. -/
def update (e : SnatchSessionEngine) (phase : SnatchPhase) (pose : PoseResult)
    (v : ℚ) : SnatchSessionEngine :=
  let e := runAutoCalibration e pose
  let e :=
    if !e.state.isSessionActive then
      match detectLockPattern pose with
      | some side => lockSession e side
      | Option.none => e
    else
      let e := manageActiveSession e pose v
      let e := trackVelocity e phase v
      handlePhaseTransitions e phase
  { e with state := { e.state with lastPhase := phase, currentVelocity := v } }

/-- Feeding a list of `(phase, pose, velocity)` frames through `update`. -/
def runUpdates (e : SnatchSessionEngine) :
    List (SnatchPhase × PoseResult × ℚ) → SnatchSessionEngine
  | [] => e
  | (φ, pose, v) :: rest => runUpdates (update e φ pose v) rest

/-! ### Projection lemmas for the engine's step functions -/

/-- The pure effect of `handlePhaseTransitions` on
`(repCount, hasHiked, hasHitLockout)`, extracted as a function. -/
def phaseStep (prev cur : SnatchPhase) (rep : ℕ) (hik lok : Bool) :
    ℕ × Bool × Bool :=
  if cur = prev then (rep, hik, lok)
  else
    let hik1 := if cur = .HIKE then true else hik
    let lok1 := if cur = .HIKE then false else lok
    let lok2 := if (cur = .LOCKOUT ∨ cur = .CATCH) ∧ hik1 = true then true else lok1
    if ((prev = .LOCKOUT ∨ prev = .CATCH) ∧ (cur = .DROP ∨ cur = .PARK)) ∧
        lok2 = true then
      (rep + 1, false, false)
    else (rep, hik1, lok2)

theorem handlePhaseTransitions_spec (e : SnatchSessionEngine) (cur : SnatchPhase) :
    ((handlePhaseTransitions e cur).state.repCount,
      (handlePhaseTransitions e cur).hasHiked,
      (handlePhaseTransitions e cur).hasHitLockout) =
        phaseStep e.state.lastPhase cur e.state.repCount e.hasHiked e.hasHitLockout ∧
    (handlePhaseTransitions e cur).state.isSessionActive = e.state.isSessionActive ∧
    (handlePhaseTransitions e cur).state.activeSide = e.state.activeSide ∧
    (handlePhaseTransitions e cur).state.lastPhase = e.state.lastPhase ∧
    (handlePhaseTransitions e cur).calib = e.calib ∧
    (handlePhaseTransitions e cur).isParked = e.isParked ∧
    (handlePhaseTransitions e cur).parkTimer = e.parkTimer ∧
    (handlePhaseTransitions e cur).standTimer = e.standTimer := by
  simp only [handlePhaseTransitions, phaseStep]
  split_ifs <;> simp_all

theorem trackVelocity_spec (e : SnatchSessionEngine) (φ : SnatchPhase) (v : ℚ) :
    (trackVelocity e φ v).state.repCount = e.state.repCount ∧
    (trackVelocity e φ v).state.isSessionActive = e.state.isSessionActive ∧
    (trackVelocity e φ v).state.activeSide = e.state.activeSide ∧
    (trackVelocity e φ v).state.lastPhase = e.state.lastPhase ∧
    (trackVelocity e φ v).hasHiked = e.hasHiked ∧
    (trackVelocity e φ v).hasHitLockout = e.hasHitLockout ∧
    (trackVelocity e φ v).calib = e.calib ∧
    (trackVelocity e φ v).isParked = e.isParked ∧
    (trackVelocity e φ v).parkTimer = e.parkTimer ∧
    (trackVelocity e φ v).standTimer = e.standTimer := by
  simp only [trackVelocity]
  split_ifs <;> simp

theorem checkStandingReset_incomplete (e : SnatchSessionEngine) (pose : PoseResult)
    (h : e.calib.isComplete = false) : checkStandingReset e pose = false := by
  unfold checkStandingReset
  rw [h]
  rfl

theorem manageActiveSession_rep0 (e : SnatchSessionEngine) (pose : PoseResult) (v : ℚ)
    (hrep : e.state.repCount = 0) (hcal : e.calib.isComplete = false) :
    manageActiveSession e pose v = { e with standTimer := 0 } := by
  simp only [manageActiveSession]
  rw [if_pos hrep, checkStandingReset_incomplete e pose hcal]
  simp

theorem manageActiveSession_rep_pos (e : SnatchSessionEngine) (pose : PoseResult)
    (v : ℚ) (hrep : e.state.repCount ≠ 0) (hpark : e.isParked = false)
    (hpt : e.parkTimer < 15) :
    manageActiveSession e pose v =
      { e with
          parkTimer := if (checkSetupGeometry pose (e.state.activeSide.getD .RIGHT) &&
            decide (|v| < PARK_VELOCITY_MAX)) = true then e.parkTimer + 1 else 0 } := by
  simp only [manageActiveSession]
  rw [if_neg hrep]
  split_ifs <;> simp_all <;> omega

/-- The method `manageActiveSession` either leaves the session state, flags and
accumulator untouched (only timers/parked change), or it performed a full
`reset()`. -/
theorem manageActiveSession_spec (e : SnatchSessionEngine) (pose : PoseResult)
    (v : ℚ) :
    ((manageActiveSession e pose v).state = e.state ∧
      (manageActiveSession e pose v).hasHiked = e.hasHiked ∧
      (manageActiveSession e pose v).hasHitLockout = e.hasHitLockout ∧
      (manageActiveSession e pose v).calib = e.calib) ∨
    ((manageActiveSession e pose v).state = initialSnatchState ∧
      (manageActiveSession e pose v).hasHiked = false ∧
      (manageActiveSession e pose v).hasHitLockout = false ∧
      (manageActiveSession e pose v).calib = e.calib) := by
  simp only [manageActiveSession, resetEngine]
  split_ifs <;> simp_all

theorem autoCalibUpd_incomplete (cal : AutoCalib) (pose : PoseResult)
    (h : cal.isComplete = false) (hf : cal.framesCaptured + 1 < CALIBRATION_FRAMES) :
    (autoCalibUpd cal pose).isComplete = false ∧
    (autoCalibUpd cal pose).framesCaptured ≤ cal.framesCaptured + 1 := by
  simp only [autoCalibUpd, CALIBRATION_FRAMES] at *
  split_ifs <;> simp_all <;> omega

/-- The shape of an engine state mid-set: session locked on `side`, rep
count and ordered-cycle flags as given, last phase `φp`, timers clear, the
auto-calibration accumulator still warming up with at most `fr` frames. -/
def Shape (e : SnatchSessionEngine) (side : Side) (rep : ℕ) (hik lok : Bool)
    (φp : SnatchPhase) (fr : ℕ) : Prop :=
  e.state.isSessionActive = true ∧ e.state.activeSide = some side ∧
  e.state.repCount = rep ∧ e.state.lastPhase = φp ∧
  e.hasHiked = hik ∧ e.hasHitLockout = lok ∧
  e.isParked = false ∧ e.parkTimer = 0 ∧ e.standTimer = 0 ∧
  e.calib.isComplete = false ∧ e.calib.framesCaptured ≤ fr

/-- One `update` step from a locked, zero-rep shape: the session stays
locked, timers stay clear, the accumulator stays incomplete, and the
rep/flag triple evolves exactly by `phaseStep`. -/
theorem update_shape_rep0 (e : SnatchSessionEngine) (side : Side) (hik lok : Bool)
    (φp φ : SnatchPhase) (pose : PoseResult) (v : ℚ) (fr : ℕ)
    (hS : Shape e side 0 hik lok φp fr) (hfr : fr + 1 < 30) :
    Shape (update e φ pose v) side (phaseStep φp φ 0 hik lok).1
      (phaseStep φp φ 0 hik lok).2.1 (phaseStep φp φ 0 hik lok).2.2 φ (fr + 1) := by
  obtain ⟨hact, hside, hrep, hlast, hhik, hlok, hpark, hpt, hst, hcal, hfrm⟩ := hS
  have hcal1 := autoCalibUpd_incomplete e.calib pose hcal
    (by simp only [CALIBRATION_FRAMES]; omega)
  have hm : manageActiveSession (runAutoCalibration e pose) pose v =
      { runAutoCalibration e pose with standTimer := 0 } :=
    manageActiveSession_rep0 _ pose v hrep hcal1.1
  simp only [update]
  rw [show (runAutoCalibration e pose).state.isSessionActive = true from hact]
  simp only [Bool.not_true, Bool.false_eq_true, if_false]
  rw [hm]
  set m : SnatchSessionEngine := { runAutoCalibration e pose with standTimer := 0 }
    with hmdef
  set t : SnatchSessionEngine := trackVelocity m φ v with htdef
  set X : SnatchSessionEngine := handlePhaseTransitions t φ with hXdef
  obtain ⟨t1, t2, t3, t4, t5, t6, t7, t8, t9, t10⟩ := trackVelocity_spec m φ v
  obtain ⟨g1, g2, g3, g4, g5, g6, g7, g8⟩ := handlePhaseTransitions_spec t φ
  have htrip : (X.state.repCount, X.hasHiked, X.hasHitLockout) =
      phaseStep φp φ 0 hik lok := by
    rw [← hXdef] at g1
    rw [g1, t4.trans hlast, t1.trans hrep, t5.trans hhik, t6.trans hlok]
  refine ⟨g2.trans (t2.trans hact), g3.trans (t3.trans hside),
    congrArg (fun p => p.1) htrip,
    rfl,
    (congrArg (fun p => p.2.1) htrip : X.hasHiked = _),
    (congrArg (fun p => p.2.2) htrip : X.hasHitLockout = _),
    g6.trans (t8.trans hpark),
    g7.trans (t9.trans hpt),
    g8.trans t10,
    ?_, ?_⟩
  · show X.calib.isComplete = false
    rw [g5, t7]
    exact hcal1.1
  · show X.calib.framesCaptured ≤ fr + 1
    rw [g5, t7]
    exact hcal1.2.trans (by omega)

/-- One `update` step mid-set with a nonzero rep count (park timer still
clear): the rep count evolves exactly by `phaseStep`. -/
theorem update_repCount_pos (e : SnatchSessionEngine) (side : Side) (rep : ℕ)
    (hik lok : Bool) (φp φ : SnatchPhase) (pose : PoseResult) (v : ℚ) (fr : ℕ)
    (hS : Shape e side rep hik lok φp fr) (hrep0 : rep ≠ 0) :
    (update e φ pose v).state.repCount = (phaseStep φp φ rep hik lok).1 := by
  obtain ⟨hact, hside, hrep, hlast, hhik, hlok, hpark, hpt, hst, hcal, hfrm⟩ := hS
  have hm := manageActiveSession_rep_pos (runAutoCalibration e pose) pose v
    (by simpa [runAutoCalibration] using hrep ▸ hrep0) hpark
    (by show e.parkTimer < 15; omega)
  simp only [update]
  rw [show (runAutoCalibration e pose).state.isSessionActive = true from hact]
  simp only [Bool.not_true, Bool.false_eq_true, if_false]
  rw [hm]
  set m : SnatchSessionEngine := { runAutoCalibration e pose with
    parkTimer := if (checkSetupGeometry pose
        ((runAutoCalibration e pose).state.activeSide.getD .RIGHT) &&
      decide (|v| < PARK_VELOCITY_MAX)) = true then
        (runAutoCalibration e pose).parkTimer + 1 else 0 } with hmdef
  set t : SnatchSessionEngine := trackVelocity m φ v with htdef
  set X : SnatchSessionEngine := handlePhaseTransitions t φ with hXdef
  obtain ⟨t1, t2, t3, t4, t5, t6, t7, t8, t9, t10⟩ := trackVelocity_spec m φ v
  obtain ⟨g1, g2, g3, g4, g5, g6, g7, g8⟩ := handlePhaseTransitions_spec t φ
  have htrip : (X.state.repCount, X.hasHiked, X.hasHitLockout) =
      phaseStep φp φ rep hik lok := by
    rw [← hXdef] at g1
    rw [g1, t4.trans hlast, t1.trans hrep, t5.trans hhik, t6.trans hlok]
  exact congrArg (fun p => p.1) htrip

theorem phaseStep_no_hike (prev φ : SnatchPhase) (rep : ℕ) (h : φ ≠ .HIKE) :
    phaseStep prev φ rep false false = (rep, false, false) := by
  simp [phaseStep, h]

theorem phaseStep_no_top (prev φ : SnatchPhase) (rep : ℕ) (hik : Bool)
    (h1 : φ ≠ .LOCKOUT) (h2 : φ ≠ .CATCH) :
    (phaseStep prev φ rep hik false).1 = rep ∧
    (phaseStep prev φ rep hik false).2.2 = false := by
  simp only [phaseStep]
  split_ifs <;> simp_all

theorem phaseStep_prev_standing (φ : SnatchPhase) (rep : ℕ) (hik : Bool) :
    (phaseStep .STANDING φ rep hik false).1 = rep := by
  cases φ <;> simp [phaseStep]

/-- A single `update` with a phase other than HIKE, starting with both
cycle flags clear, never increments the rep count and leaves both flags
clear (a reset inside the step can only lower the count to zero). -/
theorem update_no_hike (e : SnatchSessionEngine) (φ : SnatchPhase)
    (pose : PoseResult) (v : ℚ) (hφ : φ ≠ .HIKE)
    (hhik : e.hasHiked = false) (hlok : e.hasHitLockout = false) :
    (update e φ pose v).state.repCount ≤ e.state.repCount ∧
    (update e φ pose v).hasHiked = false ∧
    (update e φ pose v).hasHitLockout = false := by
  simp only [update]
  by_cases hact : (runAutoCalibration e pose).state.isSessionActive = true
  · rw [hact]
    simp only [Bool.not_true, Bool.false_eq_true, if_false]
    obtain ⟨t1, t2, t3, t4, t5, t6, t7, t8, t9, t10⟩ :=
      trackVelocity_spec (manageActiveSession (runAutoCalibration e pose) pose v) φ v
    obtain ⟨g1, g2, g3, g4, g5, g6, g7, g8⟩ := handlePhaseTransitions_spec
      (trackVelocity (manageActiveSession (runAutoCalibration e pose) pose v) φ v) φ
    rcases manageActiveSession_spec (runAutoCalibration e pose) pose v with
      ⟨m1, m2, m3, m4⟩ | ⟨m1, m2, m3, m4⟩
    · have htrip := g1
      rw [t1, t5, t6, m2, m3,
        show (runAutoCalibration e pose).hasHiked = false from hhik,
        show (runAutoCalibration e pose).hasHitLockout = false from hlok,
        phaseStep_no_hike _ φ _ hφ] at htrip
      have e_rep : (manageActiveSession (runAutoCalibration e pose) pose v).state.repCount =
          e.state.repCount := congrArg (fun s => s.repCount) m1
      exact ⟨le_of_eq ((congrArg (fun p => p.1) htrip).trans e_rep),
        congrArg (fun p => p.2.1) htrip, congrArg (fun p => p.2.2) htrip⟩
    · have htrip := g1
      rw [t1, t5, t6, m2, m3, phaseStep_no_hike _ φ _ hφ] at htrip
      have e_rep : (manageActiveSession (runAutoCalibration e pose) pose v).state.repCount =
          0 := congrArg (fun s => s.repCount) m1
      refine ⟨?_, congrArg (fun p => p.2.1) htrip, congrArg (fun p => p.2.2) htrip⟩
      rw [show (handlePhaseTransitions (trackVelocity (manageActiveSession
          (runAutoCalibration e pose) pose v) φ v) φ).state.repCount = _ from
        congrArg (fun p => p.1) htrip, e_rep]
      exact Nat.zero_le _
  · simp only [Bool.not_eq_true] at hact
    rw [hact]
    simp only [Bool.not_false, if_true]
    rcases hdet : detectLockPattern pose with _ | side <;> simp only [hdet] <;>
      exact ⟨le_refl _, hhik, hlok⟩

/-- A single `update` with a phase other than LOCKOUT/CATCH, starting with
`hasHitLockout` clear, never increments the rep count and leaves
`hasHitLockout` clear. -/
theorem update_no_top (e : SnatchSessionEngine) (φ : SnatchPhase)
    (pose : PoseResult) (v : ℚ) (hφ1 : φ ≠ .LOCKOUT) (hφ2 : φ ≠ .CATCH)
    (hlok : e.hasHitLockout = false) :
    (update e φ pose v).state.repCount ≤ e.state.repCount ∧
    (update e φ pose v).hasHitLockout = false := by
  simp only [update]
  by_cases hact : (runAutoCalibration e pose).state.isSessionActive = true
  · rw [hact]
    simp only [Bool.not_true, Bool.false_eq_true, if_false]
    obtain ⟨t1, t2, t3, t4, t5, t6, t7, t8, t9, t10⟩ :=
      trackVelocity_spec (manageActiveSession (runAutoCalibration e pose) pose v) φ v
    obtain ⟨g1, g2, g3, g4, g5, g6, g7, g8⟩ := handlePhaseTransitions_spec
      (trackVelocity (manageActiveSession (runAutoCalibration e pose) pose v) φ v) φ
    rcases manageActiveSession_spec (runAutoCalibration e pose) pose v with
      ⟨m1, m2, m3, m4⟩ | ⟨m1, m2, m3, m4⟩
    · have htrip := g1
      rw [t1, t5, t6, m2, m3,
        show (runAutoCalibration e pose).hasHitLockout = false from hlok] at htrip
      obtain ⟨hp1, hp2⟩ := phaseStep_no_top ((trackVelocity (manageActiveSession
        (runAutoCalibration e pose) pose v) φ v).state.lastPhase) φ
        ((manageActiveSession (runAutoCalibration e pose) pose v).state.repCount)
        ((runAutoCalibration e pose).hasHiked) hφ1 hφ2
      have e_rep : (manageActiveSession (runAutoCalibration e pose) pose v).state.repCount =
          e.state.repCount := congrArg (fun s => s.repCount) m1
      exact ⟨le_of_eq (((congrArg (fun p => p.1) htrip).trans hp1).trans e_rep),
        (congrArg (fun p => p.2.2) htrip).trans hp2⟩
    · have htrip := g1
      rw [t1, t5, t6, m2, m3] at htrip
      obtain ⟨hp1, hp2⟩ := phaseStep_no_top ((trackVelocity (manageActiveSession
        (runAutoCalibration e pose) pose v) φ v).state.lastPhase) φ
        ((manageActiveSession (runAutoCalibration e pose) pose v).state.repCount)
        false hφ1 hφ2
      have e_rep : (manageActiveSession (runAutoCalibration e pose) pose v).state.repCount =
          0 := congrArg (fun s => s.repCount) m1
      refine ⟨?_, (congrArg (fun p => p.2.2) htrip).trans hp2⟩
      rw [show (handlePhaseTransitions (trackVelocity (manageActiveSession
          (runAutoCalibration e pose) pose v) φ v) φ).state.repCount = _ from
        (congrArg (fun p => p.1) htrip).trans hp1, e_rep]
      exact Nat.zero_le _
  · simp only [Bool.not_eq_true] at hact
    rw [hact]
    simp only [Bool.not_false, if_true]
    rcases hdet : detectLockPattern pose with _ | side <;> simp only [hdet] <;>
      exact ⟨le_refl _, hlok⟩

theorem runUpdates_no_hike (inputs : List (SnatchPhase × PoseResult × ℚ)) :
    ∀ e : SnatchSessionEngine, e.hasHiked = false → e.hasHitLockout = false →
      (∀ x ∈ inputs, x.1 ≠ SnatchPhase.HIKE) →
      (runUpdates e inputs).state.repCount ≤ e.state.repCount ∧
      (runUpdates e inputs).hasHiked = false ∧
      (runUpdates e inputs).hasHitLockout = false := by
  induction inputs with
  | nil => intro e h1 h2 _; exact ⟨le_refl _, h1, h2⟩
  | cons x rest ih =>
    intro e h1 h2 hall
    obtain ⟨φ, pose, v⟩ := x
    have hstep := update_no_hike e φ pose v
      (hall (φ, pose, v) (List.mem_cons_self _ _)) h1 h2
    have hrest := ih (update e φ pose v) hstep.2.1 hstep.2.2
      (fun y hy => hall y (List.mem_cons_of_mem _ hy))
    exact ⟨hrest.1.trans hstep.1, hrest.2.1, hrest.2.2⟩

theorem runUpdates_no_top (inputs : List (SnatchPhase × PoseResult × ℚ)) :
    ∀ e : SnatchSessionEngine, e.hasHitLockout = false →
      (∀ x ∈ inputs, x.1 ≠ SnatchPhase.LOCKOUT ∧ x.1 ≠ SnatchPhase.CATCH) →
      (runUpdates e inputs).state.repCount ≤ e.state.repCount ∧
      (runUpdates e inputs).hasHitLockout = false := by
  induction inputs with
  | nil => intro e h1 _; exact ⟨le_refl _, h1⟩
  | cons x rest ih =>
    intro e h1 hall
    obtain ⟨φ, pose, v⟩ := x
    have hstep := update_no_top e φ pose v
      (hall (φ, pose, v) (List.mem_cons_self _ _)).1
      (hall (φ, pose, v) (List.mem_cons_self _ _)).2 h1
    have hrest := ih (update e φ pose v) hstep.2
      (fun y hy => hall y (List.mem_cons_of_mem _ hy))
    exact ⟨hrest.1.trans hstep.1, hrest.2⟩

/-- A full-skeleton pose with all 33 keypoints at the origin (which
satisfies the setup geometry for the LEFT side). -/
def pose33 : PoseResult := ⟨List.replicate 33 {}⟩

/-! ### C3 — rep counting over the canonical phase sequence -/

/-- C3: with side-lock already active (a freshly locked engine), feeding
STANDING, HANDONBELL, HIKE, PULL, FLOAT, LOCKOUT, DROP, PARK one per
`update` call — any poses with full skeletons, any velocities — leaves the
rep count at 0 through the LOCKOUT step, makes it exactly 1 on the
LOCKOUT→DROP step, and keeps it at 1 on the final step (first conjunct).
A sequence never containing HIKE (second conjunct), or never containing
LOCKOUT or CATCH (third conjunct), never increments the count. -/
theorem snatch_rep_counting :
    (∀ (side : Side) (p1 p2 p3 p4 p5 p6 p7 p8 : PoseResult)
        (v1 v2 v3 v4 v5 v6 v7 v8 : ℚ),
      (∀ p ∈ [p1, p2, p3, p4, p5, p6, p7, p8], 33 ≤ p.keypoints.length) →
      let e1 := update (lockSession initEngine side) .STANDING p1 v1
      let e2 := update e1 .HANDONBELL p2 v2
      let e3 := update e2 .HIKE p3 v3
      let e4 := update e3 .PULL p4 v4
      let e5 := update e4 .FLOAT p5 v5
      let e6 := update e5 .LOCKOUT p6 v6
      let e7 := update e6 .DROP p7 v7
      let e8 := update e7 .PARK p8 v8
      e1.state.repCount = 0 ∧ e2.state.repCount = 0 ∧ e3.state.repCount = 0 ∧
      e4.state.repCount = 0 ∧ e5.state.repCount = 0 ∧ e6.state.repCount = 0 ∧
      e7.state.repCount = 1 ∧ e8.state.repCount = 1) ∧
    (∀ (side : Side) (inputs : List (SnatchPhase × PoseResult × ℚ)),
      (∀ x ∈ inputs, x.1 ≠ SnatchPhase.HIKE ∧ 33 ≤ x.2.1.keypoints.length) →
      (runUpdates (lockSession initEngine side) inputs).state.repCount = 0) ∧
    (∀ (side : Side) (inputs : List (SnatchPhase × PoseResult × ℚ)),
      (∀ x ∈ inputs, (x.1 ≠ SnatchPhase.LOCKOUT ∧ x.1 ≠ SnatchPhase.CATCH) ∧
        33 ≤ x.2.1.keypoints.length) →
      (runUpdates (lockSession initEngine side) inputs).state.repCount = 0) := by
  refine ⟨fun side p1 p2 p3 p4 p5 p6 p7 p8 v1 v2 v3 v4 v5 v6 v7 v8 _ => ?_,
    fun side inputs hall => ?_, fun side inputs hall => ?_⟩
  · have s0 : Shape (lockSession initEngine side) side 0 false false .STANDING 0 :=
      ⟨rfl, rfl, rfl, rfl, rfl, rfl, rfl, rfl, rfl, rfl, Nat.le_refl 0⟩
    have s1 : Shape (update (lockSession initEngine side) .STANDING p1 v1)
        side 0 false false .STANDING 1 :=
      update_shape_rep0 _ side false false .STANDING .STANDING p1 v1 0 s0 (by omega)
    have s2 : Shape (update (update (lockSession initEngine side) .STANDING p1 v1)
        .HANDONBELL p2 v2) side 0 false false .HANDONBELL 2 :=
      update_shape_rep0 _ side false false .STANDING .HANDONBELL p2 v2 1 s1 (by omega)
    have s3 : Shape (update (update (update (lockSession initEngine side)
        .STANDING p1 v1) .HANDONBELL p2 v2) .HIKE p3 v3)
        side 0 true false .HIKE 3 :=
      update_shape_rep0 _ side false false .HANDONBELL .HIKE p3 v3 2 s2 (by omega)
    have s4 : Shape (update (update (update (update (lockSession initEngine side)
        .STANDING p1 v1) .HANDONBELL p2 v2) .HIKE p3 v3) .PULL p4 v4)
        side 0 true false .PULL 4 :=
      update_shape_rep0 _ side true false .HIKE .PULL p4 v4 3 s3 (by omega)
    have s5 : Shape (update (update (update (update (update (lockSession initEngine
        side) .STANDING p1 v1) .HANDONBELL p2 v2) .HIKE p3 v3) .PULL p4 v4)
        .FLOAT p5 v5) side 0 true false .FLOAT 5 :=
      update_shape_rep0 _ side true false .PULL .FLOAT p5 v5 4 s4 (by omega)
    have s6 : Shape (update (update (update (update (update (update (lockSession
        initEngine side) .STANDING p1 v1) .HANDONBELL p2 v2) .HIKE p3 v3)
        .PULL p4 v4) .FLOAT p5 v5) .LOCKOUT p6 v6)
        side 0 true true .LOCKOUT 6 :=
      update_shape_rep0 _ side true false .FLOAT .LOCKOUT p6 v6 5 s5 (by omega)
    have s7 : Shape (update (update (update (update (update (update (update
        (lockSession initEngine side) .STANDING p1 v1) .HANDONBELL p2 v2)
        .HIKE p3 v3) .PULL p4 v4) .FLOAT p5 v5) .LOCKOUT p6 v6) .DROP p7 v7)
        side 1 false false .DROP 7 :=
      update_shape_rep0 _ side true true .LOCKOUT .DROP p7 v7 6 s6 (by omega)
    have h8 : (update (update (update (update (update (update (update (update
        (lockSession initEngine side) .STANDING p1 v1) .HANDONBELL p2 v2)
        .HIKE p3 v3) .PULL p4 v4) .FLOAT p5 v5) .LOCKOUT p6 v6) .DROP p7 v7)
        .PARK p8 v8).state.repCount = 1 :=
      update_repCount_pos _ side 1 false false .DROP .PARK p8 v8 7 s7 (by omega)
    exact ⟨s1.2.2.1, s2.2.2.1, s3.2.2.1, s4.2.2.1, s5.2.2.1, s6.2.2.1,
      s7.2.2.1, h8⟩
  · have h := runUpdates_no_hike inputs (lockSession initEngine side) rfl rfl
      (fun x hx => (hall x hx).1)
    exact Nat.le_zero.1 h.1
  · have h := runUpdates_no_top inputs (lockSession initEngine side) rfl
      (fun x hx => (hall x hx).1)
    exact Nat.le_zero.1 h.1

set_option maxRecDepth 100000 in
/-- Witness for C3 at concrete inputs: all-origin full-skeleton poses and
zero velocities. -/
theorem snatch_rep_counting_witness :
    (let e1 := update (lockSession initEngine .LEFT) .STANDING pose33 0
     let e2 := update e1 .HANDONBELL pose33 0
     let e3 := update e2 .HIKE pose33 0
     let e4 := update e3 .PULL pose33 0
     let e5 := update e4 .FLOAT pose33 0
     let e6 := update e5 .LOCKOUT pose33 0
     let e7 := update e6 .DROP pose33 0
     let e8 := update e7 .PARK pose33 0
     e1.state.repCount = 0 ∧ e2.state.repCount = 0 ∧ e3.state.repCount = 0 ∧
     e4.state.repCount = 0 ∧ e5.state.repCount = 0 ∧ e6.state.repCount = 0 ∧
     e7.state.repCount = 1 ∧ e8.state.repCount = 1) ∧
    (runUpdates (lockSession initEngine .LEFT)
      [(.PULL, pose33, 0), (.LOCKOUT, pose33, 0), (.DROP, pose33, 0)]).state.repCount
      = 0 ∧
    (runUpdates (lockSession initEngine .RIGHT)
      [(.HIKE, pose33, 0), (.PULL, pose33, 0), (.FLOAT, pose33, 0),
       (.DROP, pose33, 0)]).state.repCount = 0 :=
  ⟨snatch_rep_counting.1 .LEFT pose33 pose33 pose33 pose33 pose33 pose33 pose33
      pose33 0 0 0 0 0 0 0 0 (of_decide_eq_true (by with_unfolding_all rfl)),
   snatch_rep_counting.2.1 .LEFT _ (of_decide_eq_true (by with_unfolding_all rfl)),
   snatch_rep_counting.2.2 .RIGHT _ (of_decide_eq_true (by with_unfolding_all rfl))⟩

/-! ### C7 — side-lock acquisition -/

/-- An (unlocked) engine carrying a stale peak velocity, as arises after a
false-start reset followed by a PULL-phase frame with positive velocity. -/
def eStalePeak : SnatchSessionEngine :=
  { initEngine with state := { initialSnatchState with peakVelocity := 2 } }

/-- C7 counterexample: on a geometric lock (all-origin skeleton satisfies
the LEFT wrist/knee/ankle check), `update` activates the session and sets
the side, but does NOT reset the peak-velocity field: a stale value 2
survives the lock, so "all rep/peak fields are reset" is false. -/
theorem lockSession_does_not_reset_fields :
    (update eStalePeak .STANDING pose33 0).state.isSessionActive = true ∧
    (update eStalePeak .STANDING pose33 0).state.activeSide = some Side.LEFT ∧
    (update eStalePeak .STANDING pose33 0).state.peakVelocity = 2 ∧ (2 : ℚ) ≠ 0 :=
  of_decide_eq_true (by with_unfolding_all rfl)

/-- C7 (amended): while the session is unlocked, a pose satisfying a side's
geometric check makes `update` lock that side immediately — the session
becomes active and the side is set — but the rep/peak fields are left
unchanged rather than reset (first conjunct). The rep count nevertheless
holds its reset value 0 in every reachable unlocked state: the second
conjunct shows `update` preserves the invariant "unlocked implies zero
reps" (the peak-velocity field, by contrast, can genuinely carry a stale
nonzero value into the new session, as the counterexample shows). -/
theorem update_lock_behavior :
    (∀ (e : SnatchSessionEngine) (φ : SnatchPhase) (pose : PoseResult) (v : ℚ)
        (side : Side),
      e.state.isSessionActive = false → detectLockPattern pose = some side →
      (update e φ pose v).state.isSessionActive = true ∧
      (update e φ pose v).state.activeSide = some side ∧
      (update e φ pose v).state.repCount = e.state.repCount ∧
      (update e φ pose v).state.peakVelocity = e.state.peakVelocity) ∧
    (∀ (e : SnatchSessionEngine) (φ : SnatchPhase) (pose : PoseResult) (v : ℚ),
      (e.state.isSessionActive = false → e.state.repCount = 0) →
      ((update e φ pose v).state.isSessionActive = false →
        (update e φ pose v).state.repCount = 0)) := by
  constructor
  · intro e φ pose v side hact hdet
    have hux : update e φ pose v =
        { lockSession (runAutoCalibration e pose) side with
          state := { (lockSession (runAutoCalibration e pose) side).state with
            lastPhase := φ, currentVelocity := v } } := by
      simp only [update]
      rw [show (runAutoCalibration e pose).state.isSessionActive = false from hact]
      simp only [Bool.not_false, if_true, hdet]
    rw [hux]
    exact ⟨rfl, rfl, rfl, rfl⟩
  · intro e φ pose v hQ
    by_cases hact : e.state.isSessionActive = true
    · have hux : update e φ pose v =
          { handlePhaseTransitions (trackVelocity (manageActiveSession
              (runAutoCalibration e pose) pose v) φ v) φ with
            state := { (handlePhaseTransitions (trackVelocity (manageActiveSession
              (runAutoCalibration e pose) pose v) φ v) φ).state with
              lastPhase := φ, currentVelocity := v } } := by
        simp only [update]
        rw [show (runAutoCalibration e pose).state.isSessionActive = true from hact]
        simp only [Bool.not_true, Bool.false_eq_true, if_false]
      rw [hux]
      intro hfin
      obtain ⟨t1, t2, t3, t4, t5, t6, t7, t8, t9, t10⟩ :=
        trackVelocity_spec (manageActiveSession (runAutoCalibration e pose) pose v) φ v
      obtain ⟨g1, g2, g3, g4, g5, g6, g7, g8⟩ := handlePhaseTransitions_spec
        (trackVelocity (manageActiveSession (runAutoCalibration e pose) pose v) φ v) φ
      rcases manageActiveSession_spec (runAutoCalibration e pose) pose v with
        ⟨m1, m2, m3, m4⟩ | ⟨m1, m2, m3, m4⟩
      · exfalso
        have hactX : (handlePhaseTransitions (trackVelocity (manageActiveSession
            (runAutoCalibration e pose) pose v) φ v) φ).state.isSessionActive =
            true :=
          g2.trans (t2.trans ((congrArg (fun s => s.isSessionActive) m1).trans hact))
        have hfin' : (handlePhaseTransitions (trackVelocity (manageActiveSession
            (runAutoCalibration e pose) pose v) φ v) φ).state.isSessionActive =
            false := hfin
        rw [hactX] at hfin'
        cases hfin'
      · have e_rep : (manageActiveSession (runAutoCalibration e pose) pose
            v).state.repCount = 0 := congrArg (fun s => s.repCount) m1
        have e_lp : (manageActiveSession (runAutoCalibration e pose) pose
            v).state.lastPhase = SnatchPhase.STANDING :=
          congrArg (fun s => s.lastPhase) m1
        have htrip := g1
        rw [t1, t4, t5, t6, m2, m3, e_rep, e_lp] at htrip
        have hXrep : (handlePhaseTransitions (trackVelocity (manageActiveSession
            (runAutoCalibration e pose) pose v) φ v) φ).state.repCount =
            (phaseStep .STANDING φ 0 false false).1 :=
          congrArg (fun p => p.1) htrip
        show (handlePhaseTransitions (trackVelocity (manageActiveSession
          (runAutoCalibration e pose) pose v) φ v) φ).state.repCount = 0
        rw [hXrep]
        exact phaseStep_prev_standing φ 0 false
    · simp only [Bool.not_eq_true] at hact
      have hrep := hQ hact
      rcases hdet : detectLockPattern pose with _ | side
      · have hux : update e φ pose v =
            { runAutoCalibration e pose with
              state := { (runAutoCalibration e pose).state with
                lastPhase := φ, currentVelocity := v } } := by
          simp only [update]
          rw [show (runAutoCalibration e pose).state.isSessionActive = false
            from hact]
          simp only [Bool.not_false, if_true, hdet]
          rw [show (runAutoCalibration e pose).state.isSessionActive = false
            from hact]
        rw [hux]
        intro _
        exact hrep
      · have hux : update e φ pose v =
            { lockSession (runAutoCalibration e pose) side with
              state := { (lockSession (runAutoCalibration e pose) side).state with
                lastPhase := φ, currentVelocity := v } } := by
          simp only [update]
          rw [show (runAutoCalibration e pose).state.isSessionActive = false
            from hact]
          simp only [Bool.not_false, if_true, hdet]
        rw [hux]
        intro _
        exact hrep

/-- Witness for C7's amended theorem: locking a fresh engine on the
all-origin skeleton (LEFT geometry satisfied) locks LEFT with fields
unchanged, and the zero-rep invariant application at the same input. -/
theorem update_lock_behavior_witness :
    ((update initEngine .STANDING pose33 0).state.isSessionActive = true ∧
     (update initEngine .STANDING pose33 0).state.activeSide = some Side.LEFT ∧
     (update initEngine .STANDING pose33 0).state.repCount =
       initEngine.state.repCount ∧
     (update initEngine .STANDING pose33 0).state.peakVelocity =
       initEngine.state.peakVelocity) ∧
    ((update initEngine .STANDING pose33 0).state.isSessionActive = false →
      (update initEngine .STANDING pose33 0).state.repCount = 0) :=
  ⟨update_lock_behavior.1 initEngine .STANDING pose33 0 Side.LEFT rfl
      (of_decide_eq_true (by with_unfolding_all rfl)),
   update_lock_behavior.2 initEngine .STANDING pose33 0 (fun _ => rfl)⟩

end IronEye
